import Mathlib

/-! Watcher: a PTY command supervisor.

Shallow embedding of `watcher.go`.  Go strings are modelled as lists of Unicode
code points; effects on the outside world (console, log file, signals, the
`done` channel) are modelled as explicit event lists or explicit state.
-/

namespace Watcher

/-- Go strings, as sequences of runes. -/
abbrev Str := List Char

/-! ## Pieces of the Go standard library used by the program -/

/-- Rune classification of Go `unicode.IsSpace`. -/
def isSpace (c : Char) : Bool :=
  (9 ≤ c.toNat && c.toNat ≤ 13) || c.toNat == 32 || c.toNat == 0x85 || c.toNat == 0xA0 ||
  c.toNat == 0x1680 || (0x2000 ≤ c.toNat && c.toNat ≤ 0x200A) || c.toNat == 0x2028 ||
  c.toNat == 0x2029 || c.toNat == 0x202F || c.toNat == 0x205F || c.toNat == 0x3000

/-- Go `strings.TrimSpace`: leading and trailing white space removed. -/
def trimSpace (s : Str) : Str :=
  ((s.dropWhile isSpace).reverse.dropWhile isSpace).reverse

/-- Go `unicode.ToLower` on one rune.  ASCII is handled as in the library
(`A`..`Z` shifted by 32, every other ASCII rune unchanged); for runes above
ASCII the library consults its Unicode case table, which is the parameter
`tbl`. -/
def toLowerRune (tbl : Char → Char) (c : Char) : Char :=
  if c.toNat ≤ 127 then
    if 65 ≤ c.toNat ∧ c.toNat ≤ 90 then Char.ofNat (c.toNat + 32) else c
  else tbl c

/-- Go `strings.ToLower`. -/
def toLower (tbl : Char → Char) (s : Str) : Str :=
  s.map (toLowerRune tbl)

/-- A stream holding the given lines, each ended by a newline. -/
def joinLines : List Str → Str
  | [] => []
  | l :: ls => l ++ '\n' :: joinLines ls

/-! ## The control channel (`controlProcess`, lines 149-171) -/

/-- The three operator commands of the `switch` in `controlProcess`. -/
inductive OperatorCommand where
  | pause
  | resume
  | quit
  deriving DecidableEq

/-- The scrutinee of the `switch` in `controlProcess` and its three cases:
`strings.TrimSpace(strings.ToLower(char))` compared with "p", "r", "q". -/
def operatorCommand (tbl : Char → Char) (char : Str) : Option OperatorCommand :=
  if trimSpace (toLower tbl char) = ['p'] then some .pause
  else if trimSpace (toLower tbl char) = ['r'] then some .resume
  else if trimSpace (toLower tbl char) = ['q'] then some .quit
  else none

/-- The claim's reading of the same classification: white space removed first,
letters lower-cased afterwards. -/
def operatorCommandSpec (tbl : Char → Char) (line : Str) : Option OperatorCommand :=
  if toLower tbl (trimSpace line) = ['p'] then some .pause
  else if toLower tbl (trimSpace line) = ['r'] then some .resume
  else if toLower tbl (trimSpace line) = ['q'] then some .quit
  else none

/-- The two job-control signals sent to the process group. -/
inductive Signal where
  | SIGSTOP
  | SIGCONT
  deriving DecidableEq

/-- Observable effects of the goroutines. -/
inductive Effect where
  /-- Effect of `fmt.Println` on the console. -/
  | println (s : Str)
  /-- Effect of `syscall.Kill(-cmd.Process.Pid, sig)`: a signal to the process group. -/
  | killGroup (sig : Signal)
  /-- Effect of `cmd.Process.Kill()`: the child itself is killed. -/
  | killProcess
  /-- Effect of `logAction(msg)`. -/
  | logAction (msg : Str)
  /-- A send `done <- true` that has completed. -/
  | sendDone
  deriving DecidableEq

/-- Go `reader.ReadString('\n')` on the unread part of standard input: the line
up to and including the first newline, or everything that is left when no
newline follows (the error, `io.EOF`, is discarded by the caller). -/
def readString : Str → Str × Str
  | [] => ([], [])
  | c :: rest =>
    if c = '\n' then ([c], rest)
    else ((c :: (readString rest).1), (readString rest).2)

/-- Body of `case "p"`. -/
def pauseEffects : List Effect :=
  [ .println "Pausing the process... (Press 'R' + Enter to resume or 'Q' + Enter to quit)".toList,
    .killGroup .SIGSTOP,
    .logAction "Process paused".toList ]

/-- Body of `case "r"`. -/
def resumeEffects : List Effect :=
  [ .println "Resuming the process... (Press 'P' + Enter to pause or 'Q' + Enter to quit)".toList,
    .killGroup .SIGCONT,
    .logAction "Process resumed".toList ]

/-- Body of `case "q"` up to the send on `done` (lines 164-166). -/
def quitEffects : List Effect :=
  [ .println "Quitting...".toList,
    .killProcess,
    .logAction "Process terminated".toList ]

/-- The `switch` of one loop iteration on the line just read: its effects, and
whether the iteration goes on to the send `done <- true` of line 167. -/
def controlSwitch (tbl : Char → Char) (char : Str) : List Effect × Bool :=
  match operatorCommand tbl char with
  | some .pause => (pauseEffects, false)
  | some .resume => (resumeEffects, false)
  | some .quit => (quitEffects, true)
  | none => ([], false)

/-- How a goroutine stands at the end of an observation. -/
inductive GoroutineEnd where
  /-- Still in its loop. -/
  | running
  /-- Its function has returned. -/
  | returned
  /-- Blocked for good in `done <- true`: the channel of line 247 has no buffer
  and main receives once (line 258), so a send that main's receive does not take
  never completes. -/
  | blocked
  deriving DecidableEq

/-- The loop of `controlProcess`, run for at most `fuel` iterations on the
unread standard input.  `taken` says whether main's single receive on `done`
takes the send of this goroutine.  The result is the effects in the order they
happen (`Effect.sendDone` is a send that completed) and how the goroutine
stands: it returns only from `case "q"` and only when its send completes. -/
def controlProcess (tbl : Char → Char) (taken : Bool) : Nat → Str → List Effect × GoroutineEnd
  | 0, _ => ([], .running)
  | fuel + 1, stdin =>
    if (controlSwitch tbl (readString stdin).1).2 then
      if taken then ((controlSwitch tbl (readString stdin).1).1 ++ [.sendDone], .returned)
      else ((controlSwitch tbl (readString stdin).1).1, .blocked)
    else
      ((controlSwitch tbl (readString stdin).1).1 ++
          (controlProcess tbl taken fuel (readString stdin).2).1,
        (controlProcess tbl taken fuel (readString stdin).2).2)

/-- The lines as `ReadString` delivers them: each with its newline. -/
def asRead (lines : List Str) : List Str :=
  lines.map (fun l => l ++ ['\n'])

/-- Whether a line is a quit command. -/
def isQuit (tbl : Char → Char) (line : Str) : Bool :=
  operatorCommand tbl line = some .quit

/-- What one input line that is not a quit does. -/
def lineEffects (tbl : Char → Char) (line : Str) : List Effect :=
  match operatorCommand tbl line with
  | some .pause => pauseEffects
  | some .resume => resumeEffects
  | _ => []

/-- Effects of a whole input as the specification describes them: the lines
before the first quit act in input order, then the first quit acts, and no line
after it does anything.  The completion signal of the quit is there when main's
receive takes it. -/
def expectedEffects (tbl : Char → Char) (taken : Bool) (reads : List Str) : List Effect :=
  (reads.takeWhile (fun l => !isQuit tbl l)).flatMap (lineEffects tbl) ++
    (if reads.any (isQuit tbl) then quitEffects ++ (if taken then [Effect.sendDone] else [])
     else [])

/-- How the control goroutine stands after a whole input. -/
def expectedEnd (tbl : Char → Char) (taken : Bool) (reads : List Str) : GoroutineEnd :=
  if reads.any (isQuit tbl) then (if taken then .returned else .blocked) else .running

/-! ## The line scanner (`bufio.Scanner` with `bufio.ScanLines`) -/

/-- Go `bufio.MaxScanTokenSize`: the largest buffer a default scanner uses. -/
def maxScanTokenSize : Nat := 64 * 1024

/-- Length in bytes of the UTF-8 encoding of a string. -/
def byteLen (s : Str) : Nat :=
  (s.map Char.utf8Size).sum

/-- The `dropCR` of package bufio: one trailing carriage return is removed. -/
def dropCR (s : Str) : Str :=
  if s.getLast? = some '\r' then s.dropLast else s

/-- Message of `bufio.ErrTooLong`. -/
def errTooLong : Str := "bufio.Scanner: token too long".toList

/-- What a loop `for scanner.Scan() { ... scanner.Text() ... }` sees: the tokens
in order, and the value of `scanner.Err()` after the loop (`none` is nil). -/
structure Scanned where
  tokens : List Str
  err : Option Str
  deriving DecidableEq

/-- The scanner on the unread data `data`, with `cur` the bytes of the current
line already buffered.  `ending` is the error with which the reader ends after
the data (`none` is a clean `io.EOF`).  A newline ends a token; a line of which
`maxScanTokenSize` bytes are buffered without a newline fills the buffer and
gives `ErrTooLong`; at the end of the data the buffered, unterminated line, if
not empty, is the last token. -/
def scanLinesFrom (ending : Option Str) : Str → Str → Scanned
  | cur, [] => ⟨if cur = [] then [] else [dropCR cur], ending⟩
  | cur, c :: rest =>
    if c = '\n' then
      ⟨dropCR cur :: (scanLinesFrom ending [] rest).tokens, (scanLinesFrom ending [] rest).err⟩
    else if maxScanTokenSize ≤ byteLen (cur ++ [c]) then ⟨[], some errTooLong⟩
    else scanLinesFrom ending (cur ++ [c]) rest

/-- A fresh scanner run to the end of its reader. -/
def scanLines (data : Str) (ending : Option Str) : Scanned :=
  scanLinesFrom ending [] data

/-- A text cut at its newlines: the pieces that end in a newline, without it, and
the unterminated rest. -/
def splitLines : Str → List Str × Str
  | [] => ([], [])
  | c :: rest =>
    if c = '\n' then ([] :: (splitLines rest).1, (splitLines rest).2)
    else
      match (splitLines rest).1 with
      | [] => ([], c :: (splitLines rest).2)
      | l :: ls => ((c :: l) :: ls, (splitLines rest).2)

/-- The lines of a text: its newline-ended lines and, when the text does not end
in a newline, its last line. -/
def textLines (content : Str) : List Str :=
  (splitLines content).1 ++
    (if (splitLines content).2 = [] then [] else [(splitLines content).2])

/-! ## Reading the configuration (`readConfig`, lines 47-85) -/

/-- The Go map `map[string]string`. -/
abbrev Config := Str → Option Str

/-- The empty map of `make(map[string]string)`. -/
def Config.empty : Config := fun _ => none

/-- The assignment `config[k] = v`. -/
def Config.set (m : Config) (k v : Str) : Config :=
  fun x => if x = k then some v else m x

/-- The read `config[k]`: the zero value, the empty string, for a missing key. -/
def Config.get (m : Config) (k : Str) : Str :=
  (m k).getD []

/-- Go `strings.Split(s, sep)` for a one-byte separator. -/
def splitOn (sep : Char) : Str → List Str
  | [] => [[]]
  | c :: rest =>
    if c = sep then [] :: splitOn sep rest
    else
      match splitOn sep rest with
      | [] => [[c]]
      | p :: ps => (c :: p) :: ps

/-- Body of the scanning loop of `readConfig` for one line (lines 73-77). -/
def configLine (config : Config) (line : Str) : Config :=
  if '=' ∈ line then
    config.set (trimSpace ((splitOn '=' line).getD 0 [])) (trimSpace ((splitOn '=' line).getD 1 []))
  else config

/-- The scanning loop of `readConfig` and the check of `scanner.Err()` that
follows it (lines 71-84), on the content of the opened file. -/
def readConfigFile (content : Str) (ending : Option Str) : Except Str Config :=
  match (scanLines content ending).err with
  | some e => .error e
  | none => .ok ((scanLines content ending).tokens.foldl configLine Config.empty)

/-- What `readConfig` finds in the file system. -/
structure ConfigFiles where
  /-- Result of `os.UserHomeDir()`. -/
  homeDir : Except Str Str
  /-- The content of `~/.watcher.conf`, `none` when `os.Stat` reports that it does not exist. -/
  file : Option Str
  /-- Error of `os.WriteFile` for the default file, if any. -/
  writeErr : Option Str
  /-- Error of `os.Open`, if any. -/
  openErr : Option Str
  /-- Error that ends the reading of the file, if any. -/
  readErr : Option Str

/-- The function `readConfig`. -/
def readConfig (fs : ConfigFiles) : Except Str Config :=
  match fs.homeDir with
  | .error e => .error e
  | .ok _ =>
    match fs.file with
    | none =>
      match fs.writeErr with
      | some e => .error e
      | none => .ok (Config.empty.set "log_base".toList "/tmp/watcher_logs".toList)
    | some content =>
      match fs.openErr with
      | some e => .error e
      | none => readConfigFile content fs.readErr

/-! ## The output relay (`streamPTYOutput`, lines 126-146) -/

/-- Go `strings.HasPrefix`. -/
def startsWith : Str → Str → Bool
  | _, [] => true
  | [], _ :: _ => false
  | a :: s, b :: p => a == b && startsWith s p

/-- Go `strings.Contains`. -/
def containsStr : Str → Str → Bool
  | [], sub => sub.isEmpty
  | c :: s, sub => startsWith (c :: s) sub || containsStr s sub

/-- Outcome of one `Write` on a file: `none` is a complete write, `some n` a
failed write after `n` bytes. -/
abbrev WriteOutcome := Option Nat

/-- What the relay has done when it stops. -/
structure Relay where
  /-- Bytes written to `os.Stdout`. -/
  console : Str
  /-- Bytes written to the log file. -/
  log : Str
  /-- Number of times the relay has reached its send `done <- true`. -/
  done : Nat
  deriving DecidableEq

/-- The first `Write` of `fmt.Fprintln(multiWriter, line)` for the `k`-th line:
the line and a newline go to the console, as far as the console takes them. -/
def consoleWrite (consoleEnv : Nat → WriteOutcome) (k : Nat) (line : Str) (r : Relay) : Relay :=
  match consoleEnv k with
  | some n => { r with console := r.console ++ (line ++ ['\n']).take n }
  | none => { r with console := r.console ++ (line ++ ['\n']) }

/-- The second `Write` of `fmt.Fprintln(multiWriter, line)` for the `k`-th line:
the same bytes go to the log file, unless the console write failed
(`io.MultiWriter` stops at the first writer that fails; the caller discards the
error). -/
def logWrite (consoleEnv logEnv : Nat → WriteOutcome) (k : Nat) (line : Str) (r : Relay) :
    Relay :=
  match consoleEnv k with
  | some _ => r
  | none =>
    match logEnv k with
    | some n => { r with log := r.log ++ (line ++ ['\n']).take n }
    | none => { r with log := r.log ++ (line ++ ['\n']) }

/-- The call `fmt.Fprintln(multiWriter, line)` for the `k`-th line, as its two
writes in order. -/
def fprintlnBoth (consoleEnv logEnv : Nat → WriteOutcome) (k : Nat) (line : Str) :
    List (Relay → Relay) :=
  [consoleWrite consoleEnv k line, logWrite consoleEnv logEnv k line]

/-- The loop `for scanner.Scan()` of the relay over the tokens, numbered from
`k`, as the writes it makes in order. -/
def relayLines (consoleEnv logEnv : Nat → WriteOutcome) : Nat → List Str → List (Relay → Relay)
  | _, [] => []
  | k, line :: rest =>
    fprintlnBoth consoleEnv logEnv k line ++ relayLines consoleEnv logEnv (k + 1) rest

/-- The text "input/output error" the relay looks for in a read error. -/
def ioErrorText : Str := "input/output error".toList

/-- The end of `streamPTYOutput` (lines 138-145) after the loop, on the value of
`scanner.Err()`: an error whose text contains "input/output error" returns
before the send; any other error is printed; then the relay goes to its send
`done <- true`, which `done` counts. -/
def relayFinish (err : Option Str) (r : Relay) : Relay :=
  match err with
  | none => { r with done := r.done + 1 }
  | some e =>
    if containsStr e ioErrorText then r
    else
      { r with
        console := r.console ++ ("Error reading PTY output: ".toList ++ e ++ ['\n']),
        done := r.done + 1 }

/-- The call `printBanner()`: the banner goes to the console. -/
def printBanner (banner : Str) (r : Relay) : Relay :=
  { r with console := r.console ++ banner }

/-- The statements of `streamPTYOutput` in the order they run, on a PTY stream
that delivers `data` and then ends with `ending` (`none` is a clean end of
file): the banner, the two writes of every line, the end of lines 138-145. -/
def relaySteps (banner : Str) (consoleEnv logEnv : Nat → WriteOutcome) (data : Str)
    (ending : Option Str) : List (Relay → Relay) :=
  printBanner banner ::
    (relayLines consoleEnv logEnv 0 (scanLines data ending).tokens
      ++ [relayFinish (scanLines data ending).err])

/-- Statements run one after the other. -/
def runSteps (steps : List (Relay → Relay)) (r : Relay) : Relay :=
  steps.foldl (fun r f => f r) r

/-- The function `streamPTYOutput` as a goroutine of the session.  Main does not
wait for it (lines 248-264): when the process exits the relay stops where it is.
`life` is the number of its statements the relay gets to run before that; with
`life` at least the number of `relaySteps` it runs to its end. -/
def streamPTYOutput (banner : Str) (consoleEnv logEnv : Nat → WriteOutcome) (data : Str)
    (ending : Option Str) (life : Nat) : Relay :=
  runSteps ((relaySteps banner consoleEnv logEnv data ending).take life) ⟨[], [], 0⟩

/-- Both files accept every write. -/
def writesOk : Nat → WriteOutcome := fun _ => none

/-! ## Log entries (`logAction`, lines 97-102) -/

/-- A wall-clock reading of `time.Now()`, in local time. -/
structure Time where
  year : Nat
  month : Nat
  day : Nat
  hour : Nat
  minute : Nat
  second : Nat
  deriving DecidableEq

/-- The loop of `itoa` in package log (and of `appendInt` in package time, for a
number that is not negative): decimal digits from the right, at least `wid` of
them.  The fuel is the size of the 20-byte buffer of the library. -/
def itoaLoop : Nat → Nat → Nat → Str → Str
  | 0, i, _, acc => Nat.digitChar i :: acc
  | fuel + 1, i, wid, acc =>
    if 10 ≤ i ∨ 1 < wid then itoaLoop fuel (i / 10) (wid - 1) (Nat.digitChar (i % 10) :: acc)
    else Nat.digitChar i :: acc

/-- Decimal rendering padded with zeros to a width. -/
def itoa (i wid : Nat) : Str :=
  itoaLoop 19 i wid []

/-- Go `t.Format("2006-01-02 15:04:05")`. -/
def formatTimestamp (t : Time) : Str :=
  itoa t.year 4 ++ '-' :: itoa t.month 2 ++ '-' :: itoa t.day 2 ++ ' ' ::
    itoa t.hour 2 ++ ':' :: itoa t.minute 2 ++ ':' :: itoa t.second 2

/-- The header the standard logger of package log writes before every entry:
its flags are `LstdFlags`, date and time, and its own text before the entry is
empty. -/
def logHeader (t : Time) : Str :=
  itoa t.year 4 ++ '/' :: itoa t.month 2 ++ '/' :: itoa t.day 2 ++ ' ' ::
    itoa t.hour 2 ++ ':' :: itoa t.minute 2 ++ ':' :: itoa t.second 2 ++ [' ']

/-- The output step of `log.Printf` at time `t` for the formatted text `s`: the
header, the text, and a newline when the buffer does not end in one. -/
def logPrintf (t : Time) (s : Str) : Str :=
  if (logHeader t ++ s).getLast? = some '\n' then logHeader t ++ s
  else logHeader t ++ s ++ ['\n']

/-- The function `logAction`: the bytes appended to the log file.  `now` is the
reading of `time.Now()` in `logAction`, `logNow` the reading the logger takes
itself. -/
def logAction (now logNow : Time) (action : Str) : Str :=
  logPrintf logNow ('[' :: formatTimestamp now ++ ']' :: ' ' :: action ++ ['\n'])

/-! ## The session (`main`, lines 234-264): goroutines and the `done` channel -/

/-- Where the main goroutine stands after the goroutines are started. -/
inductive MainPc where
  /-- Blocked in the receive `<-done` (line 258). -/
  | waiting
  /-- The receive has completed; the final entry is not yet written. -/
  | received
  /-- The final entry is written (lines 260-264). -/
  | logged
  /-- The function `main` has returned. -/
  | returned
  deriving DecidableEq

/-- Where a goroutine that may send on `done` stands. -/
inductive SenderPc where
  /-- Before its send. -/
  | running
  /-- Blocked in `done <- true`. -/
  | sending
  /-- The send has completed. -/
  | sent
  /-- Returned without sending (the relay on an input/output error). -/
  | returned
  deriving DecidableEq

/-- Where the goroutine of lines 239-244 stands. -/
inductive ListenerPc where
  /-- Blocked in `<-sigChan`. -/
  | waiting
  /-- The signal has been received. -/
  | notified
  /-- The entry "Received interrupt signal, terminating process" is written. -/
  | logged
  deriving DecidableEq

/-- The three goroutines that send on `done`. -/
inductive Sender where
  | relay
  | control
  | waiter
  deriving DecidableEq

/-- State of a launched session. -/
structure Session where
  main : MainPc
  relay : SenderPc
  control : SenderPc
  waiter : SenderPc
  listener : ListenerPc
  /-- The variable `err` of `main`, `none` for nil. -/
  err : Option Str
  /-- The messages passed to `logAction` so far, in order. -/
  actions : List Str
  /-- The unread part of standard input. -/
  stdin : Str
  /-- Times `cmd.Process.Kill()` was called. -/
  kills : Nat
  /-- Signals sent to the process group, in order. -/
  groupSignals : List Signal
  /-- The exit code, once the process has exited. -/
  exited : Option Nat
  deriving DecidableEq

/-- What can happen next in a session: a goroutine takes its next step, or the
outside world (the child, the operator, a signal) acts. -/
inductive SessionEvent where
  /-- The relay loop ends with `scanner.Err()` equal to `err`, and lines 138-144 run. -/
  | relayEnd (err : Option Str)
  /-- The control goroutine reads one line and runs its `switch`, up to the send. -/
  | controlRead
  /-- The call `cmd.Wait()` returns `e` and line 253 assigns it to `err`. -/
  | childExit (e : Option Str)
  /-- A send `done <- true` and the receive `<-done` of main complete together:
  the channel of `make(chan bool)` has no buffer. -/
  | send (who : Sender)
  /-- Main writes the final entry (lines 260-264). -/
  | mainLog
  /-- Main returns and the process exits. -/
  | mainReturn
  /-- A SIGINT or SIGTERM arrives and `<-sigChan` completes (line 240). -/
  | interrupt
  /-- The listener writes its entry (line 241). -/
  | listenerLog
  /-- The listener kills the child and calls `os.Exit(0)` (lines 242-243). -/
  | listenerExit
  deriving DecidableEq

/-- The final entry main writes for the value of `err` (lines 260-264). -/
def finalMessage (err : Option Str) : Str :=
  match err with
  | some e => "Command finished with error: ".toList ++ e
  | none => "Command finished successfully".toList

/-- Whether a log message is a final entry. -/
def isFinal (msg : Str) : Bool :=
  msg == "Command finished successfully".toList
    || startsWith msg "Command finished with error: ".toList

/-- The messages logged among some effects. -/
def loggedMessages : List Effect → List Str
  | [] => []
  | .logAction m :: es => m :: loggedMessages es
  | _ :: es => loggedMessages es

/-- The signals sent to the process group among some effects. -/
def groupSignalsOf : List Effect → List Signal
  | [] => []
  | .killGroup sig :: es => sig :: groupSignalsOf es
  | _ :: es => groupSignalsOf es

/-- The state of a sender. -/
def Session.pc (s : Session) : Sender → SenderPc
  | .relay => s.relay
  | .control => s.control
  | .waiter => s.waiter

/-- The state with one sender moved. -/
def Session.setPc (s : Session) (who : Sender) (pc : SenderPc) : Session :=
  match who with
  | .relay => { s with relay := pc }
  | .control => { s with control := pc }
  | .waiter => { s with waiter := pc }

/-- One step of the session; `none` when the event cannot happen in the state. -/
def step (tbl : Char → Char) (s : Session) (ev : SessionEvent) : Option Session :=
  if s.exited ≠ none then none
  else
    match ev with
    | .relayEnd err =>
      if s.relay = .running then
        some { s with relay := if (relayFinish err ⟨[], [], 0⟩).done = 0 then .returned else .sending }
      else none
    | .controlRead =>
      if s.control = .running then
        some { s with
          stdin := (readString s.stdin).2,
          actions := s.actions ++ loggedMessages (controlSwitch tbl (readString s.stdin).1).1,
          groupSignals :=
            s.groupSignals ++ groupSignalsOf (controlSwitch tbl (readString s.stdin).1).1,
          kills := s.kills + (controlSwitch tbl (readString s.stdin).1).1.count Effect.killProcess,
          control := if (controlSwitch tbl (readString s.stdin).1).2 then .sending else .running }
      else none
    | .childExit e =>
      if s.waiter = .running then some { s with err := e, waiter := .sending } else none
    | .send who =>
      if s.pc who = .sending ∧ s.main = .waiting then
        some { s.setPc who .sent with main := .received }
      else none
    | .mainLog =>
      if s.main = .received then
        some { s with actions := s.actions ++ [finalMessage s.err], main := .logged }
      else none
    | .mainReturn =>
      if s.main = .logged then some { s with main := .returned, exited := some 0 } else none
    | .interrupt =>
      if s.listener = .waiting then some { s with listener := .notified } else none
    | .listenerLog =>
      if s.listener = .notified then
        some { s with
          actions := s.actions ++ ["Received interrupt signal, terminating process".toList],
          listener := .logged }
      else none
    | .listenerExit =>
      if s.listener = .logged then some { s with kills := s.kills + 1, exited := some 0 }
      else none

/-- A schedule run from a state: events that cannot happen are passed over. -/
def run (tbl : Char → Char) : Session → List SessionEvent → Session
  | s, [] => s
  | s, ev :: rest => run tbl ((step tbl s ev).getD s) rest

/-- The session right after the launch: `logAction` has recorded the start
(line 234), `err` is nil, the four goroutines are started and main waits. -/
def launched (command stdin : Str) : Session :=
  { main := .waiting, relay := .running, control := .running, waiter := .running,
    listener := .waiting, err := none,
    actions := ["Started command: ".toList ++ command],
    stdin := stdin, kills := 0, groupSignals := [], exited := none }

/-- Number of final entries among the logged messages. -/
def finalEntries (s : Session) : Nat :=
  s.actions.countP isFinal

/-- One for a sender whose send has completed. -/
def SenderPc.sentCount : SenderPc → Nat
  | .sent => 1
  | _ => 0

/-- Number of sends on `done` that have completed. -/
def completedSends (s : Session) : Nat :=
  s.relay.sentCount + s.control.sentCount + s.waiter.sentCount

/-- How many final entries main has written at each of its positions. -/
def MainPc.finals : MainPc → Nat
  | .waiting => 0
  | .received => 0
  | .logged => 1
  | .returned => 1

/-! ## The command line and the setup (`main`, lines 198-232) -/

/-- Go `strconv.ParseBool`, which package flag applies to the value of a
boolean flag written `-h=value`. -/
def parseBool (s : Str) : Option Bool :=
  if s ∈ ["1".toList, "t".toList, "T".toList, "TRUE".toList, "true".toList, "True".toList] then
    some true
  else if s ∈ ["0".toList, "f".toList, "F".toList, "FALSE".toList, "false".toList,
      "False".toList] then
    some false
  else none

/-- How `flag.Parse()` ends. -/
inductive FlagResult where
  /-- It returns: the value of `*helpFlag` and the list `flag.Args()`. -/
  | ok (help : Bool) (args : List Str)
  /-- It ends the process itself (the error handling of the default flag set is
  `ExitOnError`): code 0 after the usage for `-help`, code 2 after an error. -/
  | exit (code : Nat)
  deriving DecidableEq

/-- Go `flag.Parse()` for a flag set whose only flag is the boolean `h`, on the
arguments after the program name; `help` is the current value of the flag. -/
def flagParse : List Str → Bool → FlagResult
  | [], help => .ok help []
  | s :: rest, help =>
    match s with
    | '-' :: c :: more =>
      if c = '-' ∧ more = [] then .ok help rest
      else
        match (if c = '-' then more else c :: more) with
        | [] => .exit 2
        | n :: name =>
          if n = '-' ∨ n = '=' then .exit 2
          else if n :: name.takeWhile (fun x => x ≠ '=') = ['h'] then
            if '=' ∈ name then
              match parseBool ((name.dropWhile (fun x => x ≠ '=')).drop 1) with
              | some b => flagParse rest b
              | none => .exit 2
            else flagParse rest true
          else if n :: name.takeWhile (fun x => x ≠ '=') = "help".toList then .exit 0
          else .exit 2
    | _ => .ok help (s :: rest)

/-- Go `strings.Join`. -/
def joinWith (sep : Str) : List Str → Str
  | [] => []
  | [a] => a
  | a :: b :: rest => a ++ sep ++ joinWith sep (b :: rest)

/-- Go `filepath.Base` on a Unix path. -/
def filepathBase (path : Str) : Str :=
  if path = [] then ['.']
  else if (((path.reverse.dropWhile (fun x => x = '/')).takeWhile (fun x => x ≠ '/')).reverse) = []
    then ['/']
  else ((path.reverse.dropWhile (fun x => x = '/')).takeWhile (fun x => x ≠ '/')).reverse

/-- What `main` meets outside the program. -/
structure MainEnv where
  /-- The files `readConfig` looks at. -/
  files : ConfigFiles
  /-- The error of `createLogFile(baseFolder, programName)`, `none` when the log is opened. -/
  createLogFile : Str → Str → Option Str
  /-- The error of `startCommandInPTY(command)`, `none` when the command is launched. -/
  startCommandInPTY : Str → Option Str
  /-- Standard input of the session. -/
  stdin : Str
  /-- The order in which the goroutines and the outside world act in the session. -/
  schedule : List SessionEvent

/-- What `main` does, step by step. -/
inductive MainStep where
  /-- Package flag prints its message and ends the process. -/
  | flagExit
  /-- The call `displayHelp()`. -/
  | displayHelp
  /-- The call `readConfig()`. -/
  | readConfig
  /-- A `fmt.Printf` of main. -/
  | printf (s : Str)
  /-- The call `createLogFile(baseFolder, programName)`. -/
  | createLogFile (baseFolder programName : Str)
  /-- The call `startCommandInPTY(command)`. -/
  | startCommandInPTY (command : Str)
  /-- The index expression `flag.Args()[0]` fails: index out of range. -/
  | indexOutOfRange
  /-- The session was launched and has reached this state. -/
  | session (s : Session)
  deriving DecidableEq

/-- A run of `main`: its steps and the exit code of the process (`none` while
the session is still running). -/
structure MainRun where
  steps : List MainStep
  exitCode : Option Nat
  deriving DecidableEq

/-- The function `main` on the arguments after the program name.  A return
from `main` ends the process with code 0, a run-time panic with code 2. -/
def main (tbl : Char → Char) (args : List Str) (env : MainEnv) : MainRun :=
  match flagParse args false with
  | .exit code => ⟨[.flagExit], some code⟩
  | .ok help rest =>
    if help = true ∨ args.length + 1 < 2 then ⟨[.displayHelp], some 0⟩
    else
      match readConfig env.files with
      | .error e =>
        ⟨[.readConfig, .printf ("Error reading config: ".toList ++ e ++ ['\n'])], some 0⟩
      | .ok config =>
        match rest with
        | [] => ⟨[.readConfig, .indexOutOfRange], some 2⟩
        | arg0 :: _ =>
          match env.createLogFile (config.get "log_base".toList)
              ((splitOn ' ' (filepathBase arg0)).getD 0 []) with
          | some e =>
            ⟨[.readConfig,
              .createLogFile (config.get "log_base".toList)
                ((splitOn ' ' (filepathBase arg0)).getD 0 []),
              .printf ("Error creating log file: ".toList ++ e ++ ['\n'])], some 0⟩
          | none =>
            match env.startCommandInPTY (joinWith [' '] rest) with
            | some e =>
              ⟨[.readConfig,
                .createLogFile (config.get "log_base".toList)
                  ((splitOn ' ' (filepathBase arg0)).getD 0 []),
                .startCommandInPTY (joinWith [' '] rest),
                .printf ("Error starting command: ".toList ++ e ++ ['\n'])], some 0⟩
            | none =>
              ⟨[.readConfig,
                .createLogFile (config.get "log_base".toList)
                  ((splitOn ' ' (filepathBase arg0)).getD 0 []),
                .startCommandInPTY (joinWith [' '] rest),
                .session (run tbl (launched (joinWith [' '] rest) env.stdin) env.schedule)],
               (run tbl (launched (joinWith [' '] rest) env.stdin) env.schedule).exited⟩

/-- A file system with the config file `log_base=/tmp/x`. -/
def filesOk : ConfigFiles :=
  ⟨.ok "/root".toList, some "log_base=/tmp/x\n".toList, none, none, none⟩

/-- A world in which every setup step succeeds and the child exits by itself. -/
def envOk : MainEnv :=
  ⟨filesOk, fun _ _ => none, fun _ => none, [],
    [.childExit none, .send .waiter, .mainLog, .mainReturn]⟩

/-- The identity case table: no rune above ASCII has a lower-case form. -/
def noCase : Char → Char := fun c => c

/-! # Theorems -/

/-! ## Library lemmas -/

theorem readString_nil : readString [] = ([], []) := rfl

theorem readString_line (l rest : Str) (h : '\n' ∉ l) :
    readString (l ++ '\n' :: rest) = (l ++ ['\n'], rest) := by
  induction l with
  | nil => simp [readString]
  | cons c l ih =>
    have hc : c ≠ '\n' := fun e => h (by simp [e])
    have hl : '\n' ∉ l := fun e => h (by simp [e])
    simp [readString, hc, ih hl]

theorem readString_tail (t : Str) (h : '\n' ∉ t) : readString t = (t, []) := by
  induction t with
  | nil => rfl
  | cons c l ih =>
    have hc : c ≠ '\n' := fun e => h (by simp [e])
    have hl : '\n' ∉ l := fun e => h (by simp [e])
    simp [readString, hc, ih hl]

theorem operatorCommand_nil (tbl : Char → Char) : operatorCommand tbl [] = none := by
  simp [operatorCommand, toLower, trimSpace]

theorem controlSwitch_nil (tbl : Char → Char) : controlSwitch tbl [] = ([], false) := by
  simp [controlSwitch, operatorCommand_nil]

theorem controlProcess_eof (tbl : Char → Char) (taken : Bool) (fuel : Nat) :
    controlProcess tbl taken fuel [] = ([], .running) := by
  induction fuel with
  | zero => rfl
  | succ n ih => simp [controlProcess, readString_nil, controlSwitch_nil, ih]

/-! ## Control channel -/

theorem controlSwitch_eq (tbl : Char → Char) (r : Str) :
    controlSwitch tbl r
      = if isQuit tbl r then (quitEffects, true) else (lineEffects tbl r, false) := by
  unfold controlSwitch isQuit lineEffects
  cases h : operatorCommand tbl r with
  | none => simp
  | some c => cases c <;> simp

theorem expectedEffects_cons (tbl : Char → Char) (taken : Bool) (r : Str) (rs : List Str) :
    expectedEffects tbl taken (r :: rs)
      = if isQuit tbl r then quitEffects ++ (if taken then [Effect.sendDone] else [])
        else lineEffects tbl r ++ expectedEffects tbl taken rs := by
  unfold expectedEffects
  by_cases h : isQuit tbl r = true
  · simp [h, List.takeWhile_cons]
  · simp [h, List.takeWhile_cons, List.append_assoc]

theorem expectedEnd_cons (tbl : Char → Char) (taken : Bool) (r : Str) (rs : List Str) :
    expectedEnd tbl taken (r :: rs)
      = if isQuit tbl r then (if taken then .returned else .blocked)
        else expectedEnd tbl taken rs := by
  unfold expectedEnd
  by_cases h : isQuit tbl r = true <;> simp [h]

theorem controlProcess_step (tbl : Char → Char) (taken : Bool) (fuel : Nat) (stdin : Str) :
    controlProcess tbl taken (fuel + 1) stdin
      = if isQuit tbl (readString stdin).1 then
          (quitEffects ++ (if taken then [Effect.sendDone] else []),
            if taken then .returned else .blocked)
        else (lineEffects tbl (readString stdin).1 ++
                (controlProcess tbl taken fuel (readString stdin).2).1,
              (controlProcess tbl taken fuel (readString stdin).2).2) := by
  rw [controlProcess, controlSwitch_eq]
  by_cases h : isQuit tbl (readString stdin).1 = true
  · cases taken <;> simp [h]
  · simp [h]

theorem controlProcess_reads (tbl : Char → Char) (taken : Bool) (lines : List Str) (tail : Str)
    (hl : ∀ l ∈ lines, '\n' ∉ l) (ht : '\n' ∉ tail) :
    ∀ fuel, lines.length + 1 ≤ fuel →
      controlProcess tbl taken fuel (joinLines lines ++ tail)
        = (expectedEffects tbl taken (asRead lines ++ [tail]),
            expectedEnd tbl taken (asRead lines ++ [tail])) := by
  induction lines with
  | nil =>
    intro fuel hf
    obtain ⟨f, rfl⟩ : ∃ f, fuel = f + 1 := ⟨fuel - 1, by simp at hf; omega⟩
    rw [controlProcess_step]
    simp only [joinLines, List.nil_append, readString_tail tail ht, asRead, List.map_nil,
      controlProcess_eof, expectedEffects_cons, expectedEnd_cons]
    by_cases h : isQuit tbl tail = true <;> simp [h, expectedEffects, expectedEnd]
  | cons l ls ih =>
    intro fuel hf
    obtain ⟨f, rfl⟩ : ∃ f, fuel = f + 1 := ⟨fuel - 1, by simp at hf; omega⟩
    have hl1 : '\n' ∉ l := hl l (by simp)
    have hls : ∀ x ∈ ls, '\n' ∉ x := fun x hx => hl x (by simp [hx])
    have hf2 : ls.length + 1 ≤ f := by simp at hf; omega
    rw [controlProcess_step]
    have hrd : readString (joinLines (l :: ls) ++ tail) = (l ++ ['\n'], joinLines ls ++ tail) := by
      have := readString_line l (joinLines ls ++ tail) hl1
      simpa [joinLines, List.append_assoc] using this
    rw [hrd]
    simp only [ih hls f hf2]
    have hrs : asRead (l :: ls) ++ [tail] = (l ++ ['\n']) :: (asRead ls ++ [tail]) := by
      simp [asRead]
    rw [hrs, expectedEffects_cons, expectedEnd_cons]
    by_cases h : isQuit tbl (l ++ ['\n']) = true <;> simp [h]

theorem lineEffects_count_sendDone (tbl : Char → Char) (r : Str) :
    (lineEffects tbl r).count Effect.sendDone = 0 := by
  unfold lineEffects
  cases operatorCommand tbl r with
  | none => simp
  | some c => cases c <;> simp [pauseEffects, resumeEffects]

theorem expectedEffects_count_sendDone (tbl : Char → Char) (taken : Bool) (reads : List Str) :
    (expectedEffects tbl taken reads).count Effect.sendDone
      = if reads.any (isQuit tbl) = true ∧ taken = true then 1 else 0 := by
  induction reads with
  | nil => simp [expectedEffects]
  | cons r rs ih =>
    rw [expectedEffects_cons]
    by_cases h : isQuit tbl r = true
    · cases taken <;> simp [h, quitEffects]
    · simp only [h, Bool.false_eq_true, if_false, List.count_append,
        lineEffects_count_sendDone, ih, Nat.zero_add, List.any_cons, Bool.false_or]

/-- C3, amended: on every finite standard input (lines ended by newlines, then
possibly an unterminated last line), `controlProcess` acts on the lines in input
order: the lines before the first quit each do what their command says (pause
sends SIGSTOP to the group, resume sends SIGCONT, also without an earlier
pause); the first quit kills the child, logs "Process terminated" and goes to
its send on `done`, and no later line has any effect.  When main's receive takes
that send, exactly one completion signal is delivered and the function returns;
when it does not, no signal is delivered and the goroutine stays blocked in the
send. -/
theorem controlProcess_acts_in_order (tbl : Char → Char) (taken : Bool) (lines : List Str)
    (tail : Str) (fuel : Nat) (hl : ∀ l ∈ lines, '\n' ∉ l) (ht : '\n' ∉ tail)
    (hf : lines.length + 1 ≤ fuel) :
    controlProcess tbl taken fuel (joinLines lines ++ tail)
        = ((((asRead lines ++ [tail]).takeWhile (fun l => !isQuit tbl l)).flatMap
              (lineEffects tbl)) ++
            (if (asRead lines ++ [tail]).any (isQuit tbl) then
              [Effect.println "Quitting...".toList, Effect.killProcess,
                Effect.logAction "Process terminated".toList]
                ++ (if taken then [Effect.sendDone] else [])
             else []),
           if (asRead lines ++ [tail]).any (isQuit tbl) then
             (if taken then GoroutineEnd.returned else GoroutineEnd.blocked)
           else GoroutineEnd.running)
      ∧ (controlProcess tbl taken fuel (joinLines lines ++ tail)).1.count Effect.sendDone
          = (if (asRead lines ++ [tail]).any (isQuit tbl) = true ∧ taken = true then 1 else 0)
      ∧ (∀ r, operatorCommand tbl r = some .pause →
          lineEffects tbl r = [Effect.println
            "Pausing the process... (Press 'R' + Enter to resume or 'Q' + Enter to quit)".toList,
            Effect.killGroup .SIGSTOP, Effect.logAction "Process paused".toList])
      ∧ (∀ r, operatorCommand tbl r = some .resume →
          lineEffects tbl r = [Effect.println
            "Resuming the process... (Press 'P' + Enter to pause or 'Q' + Enter to quit)".toList,
            Effect.killGroup .SIGCONT, Effect.logAction "Process resumed".toList])
      ∧ (∀ r, operatorCommand tbl r = none → lineEffects tbl r = []) := by
  have h := controlProcess_reads tbl taken lines tail hl ht fuel hf
  refine ⟨?_, ?_, ?_, ?_, ?_⟩
  · rw [h]; rfl
  · rw [h]; exact expectedEffects_count_sendDone tbl taken _
  · intro r hr; simp [lineEffects, hr, pauseEffects]
  · intro r hr; simp [lineEffects, hr, resumeEffects]
  · intro r hr; simp [lineEffects, hr]

/-- Witness for C3: the input "r", "p", "r", "q", "p" resumes, pauses, resumes and
quits, and the pause after the quit does nothing; main takes the send, so one
signal is delivered and the function returns. -/
theorem controlProcess_acts_in_order_witness :
    controlProcess noCase true 6 "r\np\nr\nq\np\n".toList
      = (resumeEffects ++ pauseEffects ++ resumeEffects ++ quitEffects ++ [Effect.sendDone],
          GoroutineEnd.returned) := by
  have h := (controlProcess_acts_in_order noCase true
    ["r".toList, "p".toList, "r".toList, "q".toList, "p".toList] [] 6
    (by decide) (by decide) (by decide)).1
  have e : joinLines ["r".toList, "p".toList, "r".toList, "q".toList, "p".toList] ++ []
      = "r\np\nr\nq\np\n".toList := by decide
  rw [e] at h
  rw [h]
  decide

/-- Counterexample to C3 as stated: the operator quits after main has received
the signal of another source.  The quit kills the child and logs, but its send
on `done` is not taken: no completion signal is delivered and `controlProcess`
does not return; it is blocked in the send.  In the session the relay's signal is
received first, and the control goroutine is still at its send when the process
exits. -/
theorem controlProcess_counterexample :
    controlProcess noCase false 6 "q\n".toList
        = ([Effect.println "Quitting...".toList, Effect.killProcess,
            Effect.logAction "Process terminated".toList], GoroutineEnd.blocked)
    ∧ (controlProcess noCase false 6 "q\n".toList).1.count Effect.sendDone = 0
    ∧ (controlProcess noCase false 6 "q\n".toList).2 ≠ GoroutineEnd.returned
    ∧ (run noCase (launched "ls".toList "q\n".toList)
        [.relayEnd none, .send .relay, .controlRead, .send .control, .mainLog,
          .mainReturn]).control = .sending
    ∧ (run noCase (launched "ls".toList "q\n".toList)
        [.relayEnd none, .send .relay, .controlRead, .send .control, .mainLog,
          .mainReturn]).exited = some 0 := by
  decide

/-! ## Operator commands -/

theorem isSpace_toLowerRune (tbl : Char → Char)
    (htbl : ∀ c, 127 < c.toNat → isSpace (tbl c) = isSpace c) (c : Char) :
    isSpace (toLowerRune tbl c) = isSpace c := by
  unfold toLowerRune
  by_cases h : c.toNat ≤ 127
  · by_cases h2 : 65 ≤ c.toNat ∧ c.toNat ≤ 90
    · simp only [h, h2, and_self, if_true]
      have hc : c = Char.ofNat c.toNat := (Char.ofNat_toNat c).symm
      generalize c.toNat = n at *
      obtain ⟨h3, h4⟩ := h2
      subst hc
      interval_cases n <;> rfl
    · simp [h, h2]
  · simp only [h, if_false]
    exact htbl c (by omega)

theorem trimSpace_toLower (tbl : Char → Char)
    (htbl : ∀ c, 127 < c.toNat → isSpace (tbl c) = isSpace c) (s : Str) :
    trimSpace (toLower tbl s) = toLower tbl (trimSpace s) := by
  have hcomp : isSpace ∘ toLowerRune tbl = isSpace := by
    funext c
    exact isSpace_toLowerRune tbl htbl c
  unfold trimSpace toLower
  rw [List.dropWhile_map, hcomp, ← List.map_reverse, List.dropWhile_map, hcomp,
    ← List.map_reverse]

theorem toLowerRune_ascii (tbl : Char → Char) (c : Char) (h : c.toNat ≤ 127) :
    toLowerRune tbl c = toLowerRune (fun x => x) c := by
  unfold toLowerRune
  rw [if_pos h, if_pos h]

theorem operatorCommand_ascii (tbl : Char → Char) (line : Str)
    (h : ∀ c ∈ line, c.toNat ≤ 127) :
    operatorCommand tbl line = operatorCommand (fun x => x) line := by
  have e : toLower tbl line = toLower (fun x => x) line := by
    unfold toLower
    exact List.map_congr_left (fun c hc => toLowerRune_ascii tbl c (h c hc))
  unfold operatorCommand
  rw [e]

theorem toLowerRune_eq_p (tbl : Char → Char) (c : Char) :
    toLowerRune tbl c = 'p' ↔ (c = 'p' ∨ c = 'P' ∨ (127 < c.toNat ∧ tbl c = 'p')) := by
  unfold toLowerRune
  by_cases h : c.toNat ≤ 127
  · rw [if_pos h]
    have h3 : ¬ (127 < c.toNat ∧ tbl c = 'p') := fun hh => by omega
    by_cases h2 : 65 ≤ c.toNat ∧ c.toNat ≤ 90
    · rw [if_pos h2]
      have hc : c = Char.ofNat c.toNat := (Char.ofNat_toNat c).symm
      have hk : Char.ofNat (c.toNat + 32) = 'p' ↔ (c = 'p' ∨ c = 'P') := by
        rw [hc]
        generalize c.toNat = n at *
        obtain ⟨h4, h5⟩ := h2
        interval_cases n <;> decide
      rw [hk]
      constructor
      · rintro (h6 | h6)
        · exact Or.inl h6
        · exact Or.inr (Or.inl h6)
      · rintro (h6 | h6 | h6)
        · exact Or.inl h6
        · exact Or.inr h6
        · exact absurd h6 h3
    · rw [if_neg h2]
      constructor
      · intro h6; exact Or.inl h6
      · rintro (h6 | h6 | h6)
        · exact h6
        · exfalso; apply h2; rw [h6]; decide
        · exact absurd h6 h3
  · rw [if_neg h]
    constructor
    · intro h6; exact Or.inr (Or.inr ⟨by omega, h6⟩)
    · rintro (h6 | h6 | h6)
      · exfalso; apply h; rw [h6]; decide
      · exfalso; apply h; rw [h6]; decide
      · exact h6.2

theorem toLowerRune_eq_r (tbl : Char → Char) (c : Char) :
    toLowerRune tbl c = 'r' ↔ (c = 'r' ∨ c = 'R' ∨ (127 < c.toNat ∧ tbl c = 'r')) := by
  unfold toLowerRune
  by_cases h : c.toNat ≤ 127
  · rw [if_pos h]
    have h3 : ¬ (127 < c.toNat ∧ tbl c = 'r') := fun hh => by omega
    by_cases h2 : 65 ≤ c.toNat ∧ c.toNat ≤ 90
    · rw [if_pos h2]
      have hc : c = Char.ofNat c.toNat := (Char.ofNat_toNat c).symm
      have hk : Char.ofNat (c.toNat + 32) = 'r' ↔ (c = 'r' ∨ c = 'R') := by
        rw [hc]
        generalize c.toNat = n at *
        obtain ⟨h4, h5⟩ := h2
        interval_cases n <;> decide
      rw [hk]
      constructor
      · rintro (h6 | h6)
        · exact Or.inl h6
        · exact Or.inr (Or.inl h6)
      · rintro (h6 | h6 | h6)
        · exact Or.inl h6
        · exact Or.inr h6
        · exact absurd h6 h3
    · rw [if_neg h2]
      constructor
      · intro h6; exact Or.inl h6
      · rintro (h6 | h6 | h6)
        · exact h6
        · exfalso; apply h2; rw [h6]; decide
        · exact absurd h6 h3
  · rw [if_neg h]
    constructor
    · intro h6; exact Or.inr (Or.inr ⟨by omega, h6⟩)
    · rintro (h6 | h6 | h6)
      · exfalso; apply h; rw [h6]; decide
      · exfalso; apply h; rw [h6]; decide
      · exact h6.2

theorem toLowerRune_eq_q (tbl : Char → Char) (c : Char) :
    toLowerRune tbl c = 'q' ↔ (c = 'q' ∨ c = 'Q' ∨ (127 < c.toNat ∧ tbl c = 'q')) := by
  unfold toLowerRune
  by_cases h : c.toNat ≤ 127
  · rw [if_pos h]
    have h3 : ¬ (127 < c.toNat ∧ tbl c = 'q') := fun hh => by omega
    by_cases h2 : 65 ≤ c.toNat ∧ c.toNat ≤ 90
    · rw [if_pos h2]
      have hc : c = Char.ofNat c.toNat := (Char.ofNat_toNat c).symm
      have hk : Char.ofNat (c.toNat + 32) = 'q' ↔ (c = 'q' ∨ c = 'Q') := by
        rw [hc]
        generalize c.toNat = n at *
        obtain ⟨h4, h5⟩ := h2
        interval_cases n <;> decide
      rw [hk]
      constructor
      · rintro (h6 | h6)
        · exact Or.inl h6
        · exact Or.inr (Or.inl h6)
      · rintro (h6 | h6 | h6)
        · exact Or.inl h6
        · exact Or.inr h6
        · exact absurd h6 h3
    · rw [if_neg h2]
      constructor
      · intro h6; exact Or.inl h6
      · rintro (h6 | h6 | h6)
        · exact h6
        · exfalso; apply h2; rw [h6]; decide
        · exact absurd h6 h3
  · rw [if_neg h]
    constructor
    · intro h6; exact Or.inr (Or.inr ⟨by omega, h6⟩)
    · rintro (h6 | h6 | h6)
      · exfalso; apply h; rw [h6]; decide
      · exfalso; apply h; rw [h6]; decide
      · exact h6.2

theorem dropWhile_append_all (p : Char → Bool) (ws l : Str) (h : ∀ a ∈ ws, p a = true) :
    (ws ++ l).dropWhile p = l.dropWhile p := by
  induction ws with
  | nil => rfl
  | cons w ws ih =>
    have hw : p w = true := h w (by simp)
    simp only [List.cons_append, List.dropWhile_cons, hw, if_true]
    exact ih (fun a ha => h a (by simp [ha]))

theorem trimSpace_eq_singleton (x : Char) (hx : isSpace x = false) (s : Str) :
    trimSpace s = [x] ↔
      ∃ ws1 ws2, s = ws1 ++ x :: ws2 ∧ (∀ a ∈ ws1, isSpace a = true)
        ∧ (∀ a ∈ ws2, isSpace a = true) := by
  constructor
  · intro h
    unfold trimSpace at h
    have h1 : (s.dropWhile isSpace).reverse.dropWhile isSpace = [x] := by
      have := congrArg List.reverse h
      simpa using this
    have h2 : (s.dropWhile isSpace).reverse
        = (s.dropWhile isSpace).reverse.takeWhile isSpace ++ [x] := by
      have := (List.takeWhile_append_dropWhile isSpace (s.dropWhile isSpace).reverse).symm
      rw [h1] at this
      exact this
    have h3 : s.dropWhile isSpace
        = x :: ((s.dropWhile isSpace).reverse.takeWhile isSpace).reverse := by
      have := congrArg List.reverse h2
      simpa using this
    refine ⟨s.takeWhile isSpace, ((s.dropWhile isSpace).reverse.takeWhile isSpace).reverse,
      ?_, ?_, ?_⟩
    · have := (List.takeWhile_append_dropWhile isSpace s).symm
      rw [h3] at this
      exact this
    · intro a ha; exact List.mem_takeWhile_imp ha
    · intro a ha
      rw [List.mem_reverse] at ha
      exact List.mem_takeWhile_imp ha
  · rintro ⟨ws1, ws2, rfl, h1, h2⟩
    unfold trimSpace
    rw [dropWhile_append_all isSpace ws1 _ h1]
    have e1 : (x :: ws2).dropWhile isSpace = x :: ws2 := by
      simp [List.dropWhile_cons, hx]
    rw [e1]
    have e2 : (x :: ws2).reverse = ws2.reverse ++ [x] := by simp
    rw [e2, dropWhile_append_all isSpace ws2.reverse _
      (fun a ha => h2 a (List.mem_reverse.mp ha))]
    simp [List.dropWhile_cons, hx]

theorem command_form (tbl : Char → Char)
    (htbl : ∀ c, 127 < c.toNat → isSpace (tbl c) = isSpace c) (line : Str) (l : Char)
    (hl : isSpace l = false) :
    trimSpace (toLower tbl line) = [l] ↔
      ∃ ws1 c ws2, line = ws1 ++ c :: ws2 ∧ (∀ x ∈ ws1, isSpace x = true)
        ∧ (∀ x ∈ ws2, isSpace x = true) ∧ toLowerRune tbl c = l := by
  rw [trimSpace_toLower tbl htbl]
  constructor
  · intro h
    unfold toLower at h
    cases ht : trimSpace line with
    | nil => rw [ht] at h; simp at h
    | cons c rest =>
      rw [ht] at h
      simp only [List.map_cons, List.cons.injEq, List.map_eq_nil_iff] at h
      obtain ⟨hc, hr⟩ := h
      subst hr
      have hsc : isSpace c = false := by
        rw [← isSpace_toLowerRune tbl htbl c, hc]; exact hl
      obtain ⟨ws1, ws2, e, h1, h2⟩ := (trimSpace_eq_singleton c hsc line).mp ht
      exact ⟨ws1, c, ws2, e, h1, h2, hc⟩
  · rintro ⟨ws1, c, ws2, e, h1, h2, hc⟩
    have hsc : isSpace c = false := by
      rw [← isSpace_toLowerRune tbl htbl c, hc]; exact hl
    have ht : trimSpace line = [c] := (trimSpace_eq_singleton c hsc line).mpr ⟨ws1, ws2, e, h1, h2⟩
    rw [ht]
    simp [toLower, hc]

theorem operatorCommand_cases (t : Str) :
    ((if t = ['p'] then some OperatorCommand.pause
      else if t = ['r'] then some OperatorCommand.resume
      else if t = ['q'] then some OperatorCommand.quit else none) = some .pause ↔ t = ['p'])
    ∧ ((if t = ['p'] then some OperatorCommand.pause
      else if t = ['r'] then some OperatorCommand.resume
      else if t = ['q'] then some OperatorCommand.quit else none) = some .resume ↔ t = ['r'])
    ∧ ((if t = ['p'] then some OperatorCommand.pause
      else if t = ['r'] then some OperatorCommand.resume
      else if t = ['q'] then some OperatorCommand.quit else none) = some .quit ↔ t = ['q'])
    ∧ ((if t = ['p'] then some OperatorCommand.pause
      else if t = ['r'] then some OperatorCommand.resume
      else if t = ['q'] then some OperatorCommand.quit else none) = none ↔
        (t ≠ ['p'] ∧ t ≠ ['r'] ∧ t ≠ ['q'])) := by
  by_cases hp : t = ['p']
  · subst hp; simp
  · by_cases hr : t = ['r']
    · subst hr; simp
    · by_cases hq : t = ['q']
      · subst hq; simp
      · simp [hp, hr, hq]

/-- C4: the operator command of a line is pause, resume or quit exactly when the
line is white space, then one letter `p`, `r` or `q` in lower or upper case (or
a rune above ASCII whose lower case is that letter), then white space; every
other line, the empty one included, gives no command, and the loop iteration
then has no effect at all (no print, no signal, no log entry).  The code
lower-cases before it trims; trimming first gives the same command.  The
characterisation holds for a case table that maps no space to a non-space or
back, as the Unicode one does; the ASCII examples hold for every case table. -/
theorem operatorCommand_exact (tbl : Char → Char) (line : Str) :
    ((∀ c, 127 < c.toNat → isSpace (tbl c) = isSpace c) →
      (operatorCommand tbl line = some .pause ↔
        ∃ ws1 c ws2, line = ws1 ++ c :: ws2 ∧ (∀ x ∈ ws1, isSpace x = true)
          ∧ (∀ x ∈ ws2, isSpace x = true)
          ∧ (c = 'p' ∨ c = 'P' ∨ (127 < c.toNat ∧ tbl c = 'p')))
      ∧ (operatorCommand tbl line = some .resume ↔
        ∃ ws1 c ws2, line = ws1 ++ c :: ws2 ∧ (∀ x ∈ ws1, isSpace x = true)
          ∧ (∀ x ∈ ws2, isSpace x = true)
          ∧ (c = 'r' ∨ c = 'R' ∨ (127 < c.toNat ∧ tbl c = 'r')))
      ∧ (operatorCommand tbl line = some .quit ↔
        ∃ ws1 c ws2, line = ws1 ++ c :: ws2 ∧ (∀ x ∈ ws1, isSpace x = true)
          ∧ (∀ x ∈ ws2, isSpace x = true)
          ∧ (c = 'q' ∨ c = 'Q' ∨ (127 < c.toNat ∧ tbl c = 'q')))
      ∧ (operatorCommand tbl line = none ↔
        ¬ ∃ ws1 c ws2, line = ws1 ++ c :: ws2 ∧ (∀ x ∈ ws1, isSpace x = true)
          ∧ (∀ x ∈ ws2, isSpace x = true)
          ∧ (c = 'p' ∨ c = 'P' ∨ c = 'r' ∨ c = 'R' ∨ c = 'q' ∨ c = 'Q'
              ∨ (127 < c.toNat ∧ (tbl c = 'p' ∨ tbl c = 'r' ∨ tbl c = 'q'))))
      ∧ operatorCommand tbl line = operatorCommandSpec tbl line)
    ∧ (operatorCommand tbl line = none → controlSwitch tbl line = ([], false))
    ∧ operatorCommand tbl [] = none
    ∧ operatorCommand tbl "\n".toList = none
    ∧ operatorCommand tbl " P \n".toList = some .pause
    ∧ operatorCommand tbl "p".toList = some .pause
    ∧ operatorCommand tbl "r\n".toList = some .resume
    ∧ operatorCommand tbl "  R\r\n".toList = some .resume
    ∧ operatorCommand tbl "\tQ \n".toList = some .quit
    ∧ operatorCommand tbl "q\n".toList = some .quit
    ∧ operatorCommand tbl "pq\n".toList = none
    ∧ operatorCommand tbl "p q\n".toList = none
    ∧ operatorCommand tbl "x\n".toList = none := by
  obtain ⟨k1, k2, k3, k4⟩ := operatorCommand_cases (trimSpace (toLower tbl line))
  refine ⟨?_, ?_, operatorCommand_nil tbl, ?_, ?_, ?_, ?_, ?_, ?_, ?_, ?_, ?_, ?_⟩
  · intro htbl
    have fp := command_form tbl htbl line 'p' (by decide)
    have fr := command_form tbl htbl line 'r' (by decide)
    have fq := command_form tbl htbl line 'q' (by decide)
    have gp : operatorCommand tbl line = some .pause ↔
        ∃ ws1 c ws2, line = ws1 ++ c :: ws2 ∧ (∀ x ∈ ws1, isSpace x = true)
          ∧ (∀ x ∈ ws2, isSpace x = true)
          ∧ (c = 'p' ∨ c = 'P' ∨ (127 < c.toNat ∧ tbl c = 'p')) := by
      rw [show (operatorCommand tbl line = some .pause ↔ _) from k1, fp]
      simp only [toLowerRune_eq_p]
    have gr : operatorCommand tbl line = some .resume ↔
        ∃ ws1 c ws2, line = ws1 ++ c :: ws2 ∧ (∀ x ∈ ws1, isSpace x = true)
          ∧ (∀ x ∈ ws2, isSpace x = true)
          ∧ (c = 'r' ∨ c = 'R' ∨ (127 < c.toNat ∧ tbl c = 'r')) := by
      rw [show (operatorCommand tbl line = some .resume ↔ _) from k2, fr]
      simp only [toLowerRune_eq_r]
    have gq : operatorCommand tbl line = some .quit ↔
        ∃ ws1 c ws2, line = ws1 ++ c :: ws2 ∧ (∀ x ∈ ws1, isSpace x = true)
          ∧ (∀ x ∈ ws2, isSpace x = true)
          ∧ (c = 'q' ∨ c = 'Q' ∨ (127 < c.toNat ∧ tbl c = 'q')) := by
      rw [show (operatorCommand tbl line = some .quit ↔ _) from k3, fq]
      simp only [toLowerRune_eq_q]
    refine ⟨gp, gr, gq, ?_, ?_⟩
    · constructor
      · intro hn
        rintro ⟨ws1, c, ws2, e, h1, h2, hc⟩
        have : operatorCommand tbl line ≠ none := by
          rcases hc with hc | hc | hc | hc | hc | hc | ⟨hc, hc2 | hc2 | hc2⟩
          · rw [gp.mpr ⟨ws1, c, ws2, e, h1, h2, Or.inl hc⟩]; simp
          · rw [gp.mpr ⟨ws1, c, ws2, e, h1, h2, Or.inr (Or.inl hc)⟩]; simp
          · rw [gr.mpr ⟨ws1, c, ws2, e, h1, h2, Or.inl hc⟩]; simp
          · rw [gr.mpr ⟨ws1, c, ws2, e, h1, h2, Or.inr (Or.inl hc)⟩]; simp
          · rw [gq.mpr ⟨ws1, c, ws2, e, h1, h2, Or.inl hc⟩]; simp
          · rw [gq.mpr ⟨ws1, c, ws2, e, h1, h2, Or.inr (Or.inl hc)⟩]; simp
          · rw [gp.mpr ⟨ws1, c, ws2, e, h1, h2, Or.inr (Or.inr ⟨hc, hc2⟩)⟩]; simp
          · rw [gr.mpr ⟨ws1, c, ws2, e, h1, h2, Or.inr (Or.inr ⟨hc, hc2⟩)⟩]; simp
          · rw [gq.mpr ⟨ws1, c, ws2, e, h1, h2, Or.inr (Or.inr ⟨hc, hc2⟩)⟩]; simp
        exact this hn
      · intro hno
        cases hoc : operatorCommand tbl line with
        | none => rfl
        | some cmd =>
          exfalso
          apply hno
          cases cmd with
          | pause =>
            obtain ⟨ws1, c, ws2, e, h1, h2, hc⟩ := gp.mp hoc
            refine ⟨ws1, c, ws2, e, h1, h2, ?_⟩
            rcases hc with hc | hc | hc
            · exact Or.inl hc
            · exact Or.inr (Or.inl hc)
            · exact Or.inr (Or.inr (Or.inr (Or.inr (Or.inr (Or.inr ⟨hc.1, Or.inl hc.2⟩)))))
          | resume =>
            obtain ⟨ws1, c, ws2, e, h1, h2, hc⟩ := gr.mp hoc
            refine ⟨ws1, c, ws2, e, h1, h2, ?_⟩
            rcases hc with hc | hc | hc
            · exact Or.inr (Or.inr (Or.inl hc))
            · exact Or.inr (Or.inr (Or.inr (Or.inl hc)))
            · exact Or.inr (Or.inr (Or.inr (Or.inr (Or.inr (Or.inr
                ⟨hc.1, Or.inr (Or.inl hc.2)⟩)))))
          | quit =>
            obtain ⟨ws1, c, ws2, e, h1, h2, hc⟩ := gq.mp hoc
            refine ⟨ws1, c, ws2, e, h1, h2, ?_⟩
            rcases hc with hc | hc | hc
            · exact Or.inr (Or.inr (Or.inr (Or.inr (Or.inl hc))))
            · exact Or.inr (Or.inr (Or.inr (Or.inr (Or.inr (Or.inl hc)))))
            · exact Or.inr (Or.inr (Or.inr (Or.inr (Or.inr (Or.inr
                ⟨hc.1, Or.inr (Or.inr hc.2)⟩)))))
    · have e := trimSpace_toLower tbl htbl line
      unfold operatorCommand operatorCommandSpec
      rw [e]
  · intro h; simp [controlSwitch, h]
  · exact (operatorCommand_ascii tbl _ (by decide)).trans (by decide)
  · exact (operatorCommand_ascii tbl _ (by decide)).trans (by decide)
  · exact (operatorCommand_ascii tbl _ (by decide)).trans (by decide)
  · exact (operatorCommand_ascii tbl _ (by decide)).trans (by decide)
  · exact (operatorCommand_ascii tbl _ (by decide)).trans (by decide)
  · exact (operatorCommand_ascii tbl _ (by decide)).trans (by decide)
  · exact (operatorCommand_ascii tbl _ (by decide)).trans (by decide)
  · exact (operatorCommand_ascii tbl _ (by decide)).trans (by decide)
  · exact (operatorCommand_ascii tbl _ (by decide)).trans (by decide)
  · exact (operatorCommand_ascii tbl _ (by decide)).trans (by decide)

/-- Witness for C4: the line " Q \t" with its newline is one space, the letter
Q, then white space, so it is a quit; "Quit" is not of that form and is no
command. -/
theorem operatorCommand_exact_witness :
    operatorCommand noCase " Q \t\n".toList = some .quit
    ∧ operatorCommand noCase "Quit\n".toList = none :=
  ⟨((operatorCommand_exact noCase " Q \t\n".toList).1 (fun _ _ => rfl)).2.2.1.mpr
      ⟨[' '], 'Q', " \t\n".toList, by decide, by decide, by decide, Or.inr (Or.inl rfl)⟩,
   by decide⟩

/-! ## The line scanner -/

theorem byteLen_append (a b : Str) : byteLen (a ++ b) = byteLen a + byteLen b := by
  simp [byteLen]

theorem byteLen_replicate (n : Nat) : byteLen (List.replicate n 'a') = n := by
  induction n with
  | zero => rfl
  | succ k ih =>
    have h1 : Char.utf8Size 'a' = 1 := by decide
    have : byteLen (List.replicate (k + 1) 'a') = Char.utf8Size 'a' + byteLen (List.replicate k 'a') := by
      simp [byteLen, List.replicate_succ]
    rw [this, ih, h1]; omega

theorem scanLinesFrom_line (ending : Option Str) (l : Str) (hl : '\n' ∉ l) :
    ∀ (cur rest : Str), byteLen (cur ++ l) < maxScanTokenSize →
      scanLinesFrom ending cur (l ++ '\n' :: rest)
        = ⟨dropCR (cur ++ l) :: (scanLinesFrom ending [] rest).tokens,
            (scanLinesFrom ending [] rest).err⟩ := by
  induction l with
  | nil => intro cur rest _; simp [scanLinesFrom]
  | cons c l ih =>
    intro cur rest hb
    have hc : c ≠ '\n' := fun e => hl (by simp [e])
    have hl2 : '\n' ∉ l := fun e => hl (by simp [e])
    have e1 : cur ++ c :: l = (cur ++ [c]) ++ l := by simp
    have hb2 : byteLen ((cur ++ [c]) ++ l) < maxScanTokenSize := by rw [← e1]; exact hb
    have hb3 : ¬ maxScanTokenSize ≤ byteLen (cur ++ [c]) := by
      rw [byteLen_append] at hb2; omega
    have := ih hl2 (cur ++ [c]) rest hb2
    rw [List.cons_append, scanLinesFrom, if_neg hc, if_neg hb3, this, e1]

theorem scanLinesFrom_tail (ending : Option Str) (t : Str) (ht : '\n' ∉ t) :
    ∀ (cur : Str), byteLen (cur ++ t) < maxScanTokenSize →
      scanLinesFrom ending cur t
        = ⟨if cur ++ t = [] then [] else [dropCR (cur ++ t)], ending⟩ := by
  induction t with
  | nil => intro cur _; simp [scanLinesFrom]
  | cons c l ih =>
    intro cur hb
    have hc : c ≠ '\n' := fun e => ht (by simp [e])
    have hl2 : '\n' ∉ l := fun e => ht (by simp [e])
    have e1 : cur ++ c :: l = (cur ++ [c]) ++ l := by simp
    have hb2 : byteLen ((cur ++ [c]) ++ l) < maxScanTokenSize := by rw [← e1]; exact hb
    have hb3 : ¬ maxScanTokenSize ≤ byteLen (cur ++ [c]) := by
      rw [byteLen_append] at hb2; omega
    have := ih hl2 (cur ++ [c]) hb2
    rw [scanLinesFrom, if_neg hc, if_neg hb3, this, e1]

theorem scanLinesFrom_tooLong (ending : Option Str) (l : Str) (hl : '\n' ∉ l) :
    ∀ (cur rest : Str), byteLen cur < maxScanTokenSize →
      maxScanTokenSize ≤ byteLen (cur ++ l) →
      scanLinesFrom ending cur (l ++ rest) = ⟨[], some errTooLong⟩ := by
  induction l with
  | nil => intro cur rest h1 h2; simp at h2; omega
  | cons c l ih =>
    intro cur rest h1 h2
    have hc : c ≠ '\n' := fun e => hl (by simp [e])
    have hl2 : '\n' ∉ l := fun e => hl (by simp [e])
    by_cases hb : maxScanTokenSize ≤ byteLen (cur ++ [c])
    · simp [scanLinesFrom, hc, hb]
    · have e1 : cur ++ c :: l = (cur ++ [c]) ++ l := by simp
      have := ih hl2 (cur ++ [c]) rest (by omega) (by rw [← e1]; exact h2)
      rw [List.cons_append, scanLinesFrom, if_neg hc, if_neg hb]
      exact this

theorem scanLines_lines (ending : Option Str) (lines : List Str) (tail : Str)
    (hl : ∀ l ∈ lines, '\n' ∉ l ∧ byteLen l < maxScanTokenSize)
    (ht : '\n' ∉ tail ∧ byteLen tail < maxScanTokenSize) :
    scanLines (joinLines lines ++ tail) ending
      = ⟨lines.map dropCR ++ (if tail = [] then [] else [dropCR tail]), ending⟩ := by
  unfold scanLines
  induction lines with
  | nil =>
    have := scanLinesFrom_tail ending tail ht.1 [] (by simpa using ht.2)
    simpa [joinLines] using this
  | cons l ls ih =>
    have h1 := hl l (by simp)
    have hls : ∀ x ∈ ls, '\n' ∉ x ∧ byteLen x < maxScanTokenSize :=
      fun x hx => hl x (by simp [hx])
    have := scanLinesFrom_line ending l h1.1 [] (joinLines ls ++ tail) (by simpa using h1.2)
    simp only [joinLines, List.append_assoc, List.cons_append, List.map_cons]
    rw [this, ih hls]
    simp

theorem scanLines_long (ending : Option Str) (n : Nat) (h : maxScanTokenSize ≤ n) (rest : Str) :
    scanLines (List.replicate n 'a' ++ rest) ending = ⟨[], some errTooLong⟩ := by
  unfold scanLines
  apply scanLinesFrom_tooLong
  · intro hm
    have := (List.mem_replicate.mp hm).2
    exact absurd this (by decide)
  · decide
  · rw [List.nil_append, byteLen_replicate]; exact h

/-! ## Reading the configuration -/

theorem splitOn_no_sep (sep : Char) (v : Str) (h : sep ∉ v) : splitOn sep v = [v] := by
  induction v with
  | nil => rfl
  | cons c l ih =>
    have hc : c ≠ sep := fun e => h (by simp [e])
    have hl : sep ∉ l := fun e => h (by simp [e])
    simp [splitOn, hc, ih hl]

theorem splitOn_first (sep : Char) (k rest : Str) (h : sep ∉ k) :
    splitOn sep (k ++ sep :: rest) = k :: splitOn sep rest := by
  induction k with
  | nil => simp [splitOn]
  | cons c l ih =>
    have hc : c ≠ sep := fun e => h (by simp [e])
    have hl : sep ∉ l := fun e => h (by simp [e])
    simp [splitOn, hc, ih hl]

theorem configLine_skip (cfg : Config) (line : Str) (h : '=' ∉ line) :
    configLine cfg line = cfg := by
  simp [configLine, h]

theorem configLine_kv (cfg : Config) (k v : Str) (hk : '=' ∉ k) (hv : '=' ∉ v) :
    configLine cfg (k ++ '=' :: v) = cfg.set (trimSpace k) (trimSpace v) := by
  have hs : splitOn '=' (k ++ '=' :: v) = [k, v] := by
    rw [splitOn_first _ _ _ hk, splitOn_no_sep _ _ hv]
  simp [configLine, hs]

theorem mem_dropCR_iff (l : Str) : '=' ∈ dropCR l ↔ '=' ∈ l := by
  unfold dropCR
  by_cases h : l.getLast? = some '\r'
  · simp only [h, if_true]
    have e : l = l.dropLast ++ ['\r'] := by
      have := List.dropLast_append_getLast? '\r' (by simpa using h)
      exact this.symm
    constructor
    · intro hm; rw [e]; simp [hm]
    · intro hm
      rw [e] at hm
      simp only [List.mem_append, List.mem_singleton] at hm
      rcases hm with hm | hm
      · exact hm
      · exact absurd hm (by decide)
  · simp [h]

theorem foldl_configLine_filter (lines : List Str) :
    ∀ cfg : Config, (lines.map dropCR).foldl configLine cfg
      = ((lines.filter (fun l => decide ('=' ∈ l))).map dropCR).foldl configLine cfg := by
  induction lines with
  | nil => intro cfg; rfl
  | cons l ls ih =>
    intro cfg
    by_cases h : '=' ∈ l
    · simp only [List.map_cons, List.foldl_cons, List.filter_cons, h, decide_True, if_true]
      exact ih _
    · have h2 : '=' ∉ dropCR l := fun e => h ((mem_dropCR_iff l).mp e)
      simp only [List.map_cons, List.foldl_cons, List.filter_cons, h, decide_False,
        configLine_skip cfg _ h2]
      simpa using ih cfg

theorem readConfigFile_lines (lines : List Str)
    (hl : ∀ l ∈ lines, '\n' ∉ l ∧ byteLen l < maxScanTokenSize) :
    readConfigFile (joinLines lines) none
      = .ok ((lines.map dropCR).foldl configLine Config.empty) := by
  have h := scanLines_lines none lines [] hl (by decide)
  simp only [List.append_nil, if_true] at h
  simp [readConfigFile, h]

theorem readConfigFile_scan_error (content : Str) (ending : Option Str) (e : Str)
    (h : (scanLines content ending).err = some e) :
    readConfigFile content ending = .error e := by
  unfold readConfigFile
  rw [h]

theorem maxScanTokenSize_le : maxScanTokenSize ≤ 65536 := by decide

theorem readConfigFile_long :
    readConfigFile (List.replicate 65536 'a' ++ "\nlog_base=/tmp/x\n".toList) none
      = .error errTooLong :=
  readConfigFile_scan_error _ _ _
    (congrArg Scanned.err (scanLines_long none 65536 maxScanTokenSize_le _))

theorem readConfigFile_one_line (l : Str) (h : '\n' ∉ l ∧ byteLen l < maxScanTokenSize) :
    readConfigFile (l ++ ['\n']) none = .ok (configLine Config.empty (dropCR l)) := by
  have := readConfigFile_lines [l] (by simpa using h)
  simpa [joinLines] using this

theorem readConfig_of_one_line (l : Str) (h : '\n' ∉ l ∧ byteLen l < maxScanTokenSize) :
    readConfig ⟨.ok "/root".toList, some (l ++ ['\n']), none, none, none⟩
      = .ok (configLine Config.empty (dropCR l)) :=
  readConfigFile_one_line l h

theorem splitLines_spec (content : Str) :
    content = joinLines (splitLines content).1 ++ (splitLines content).2
      ∧ (∀ l ∈ (splitLines content).1, '\n' ∉ l) ∧ '\n' ∉ (splitLines content).2 := by
  induction content with
  | nil => simp [splitLines, joinLines]
  | cons c rest ih =>
    obtain ⟨h1, h2, h3⟩ := ih
    by_cases hc : c = '\n'
    · subst hc
      simp only [splitLines, if_true]
      refine ⟨?_, ?_, h3⟩
      · simp only [joinLines, List.nil_append, List.cons_append]
        rw [← h1]
      · intro l hl
        simp only [List.mem_cons] at hl
        rcases hl with hl | hl
        · subst hl; simp
        · exact h2 l hl
    · cases hs : (splitLines rest).1 with
      | nil =>
        have e : splitLines (c :: rest) = ([], c :: (splitLines rest).2) := by
          simp only [splitLines, hc, if_false, hs]
        rw [e]
        rw [hs] at h1
        refine ⟨?_, ?_, ?_⟩
        · simp only [joinLines, List.nil_append] at h1 ⊢
          rw [← h1]
        · intro l hl; simp at hl
        · intro hm
          simp only [List.mem_cons] at hm
          rcases hm with hm | hm
          · exact hc hm.symm
          · exact h3 hm
      | cons l ls =>
        have e : splitLines (c :: rest) = ((c :: l) :: ls, (splitLines rest).2) := by
          simp only [splitLines, hc, if_false, hs]
        rw [e]
        rw [hs] at h1 h2
        refine ⟨?_, ?_, h3⟩
        · simp only [joinLines, List.cons_append] at h1 ⊢
          rw [← h1]
        · intro x hx
          simp only [List.mem_cons] at hx
          rcases hx with hx | hx
          · subst hx
            intro hm
            simp only [List.mem_cons] at hm
            rcases hm with hm | hm
            · exact hc hm.symm
            · exact h2 l (by simp) hm
          · exact h2 x (by simp [hx])

theorem textLines_no_newline (content : Str) : ∀ l ∈ textLines content, '\n' ∉ l := by
  obtain ⟨_, h2, h3⟩ := splitLines_spec content
  intro l hl
  unfold textLines at hl
  rw [List.mem_append] at hl
  rcases hl with hl | hl
  · exact h2 l hl
  · by_cases ht : (splitLines content).2 = []
    · simp [ht] at hl
    · simp only [ht, if_false, List.mem_singleton] at hl
      rw [hl]; exact h3

theorem scanLines_text (content : Str) (ending : Option Str)
    (hl : ∀ l ∈ textLines content, byteLen l < maxScanTokenSize) :
    scanLines content ending = ⟨(textLines content).map dropCR, ending⟩ := by
  obtain ⟨h1, h2, h3⟩ := splitLines_spec content
  have hlines : ∀ l ∈ (splitLines content).1, '\n' ∉ l ∧ byteLen l < maxScanTokenSize :=
    fun l hm => ⟨h2 l hm, hl l (by unfold textLines; simp [hm])⟩
  have htail : '\n' ∉ (splitLines content).2 ∧ byteLen (splitLines content).2 < maxScanTokenSize := by
    refine ⟨h3, ?_⟩
    by_cases ht : (splitLines content).2 = []
    · rw [ht]; decide
    · exact hl _ (by unfold textLines; simp [ht])
  have h := scanLines_lines ending (splitLines content).1 (splitLines content).2 hlines htail
  rw [← h1] at h
  rw [h]
  unfold textLines
  by_cases ht : (splitLines content).2 = [] <;> simp [ht]

theorem readConfigFile_text (content : Str)
    (hl : ∀ l ∈ textLines content, byteLen l < maxScanTokenSize) :
    readConfigFile content none
      = .ok (((textLines content).map dropCR).foldl configLine Config.empty) := by
  simp [readConfigFile, scanLines_text content none hl]

theorem dropWhile_snoc (p : Char → Bool) (a : Char) (ha : p a = true) (d : Str) :
    ((d ++ [a]).dropWhile p = [] ∧ d.dropWhile p = [])
      ∨ (d ++ [a]).dropWhile p = d.dropWhile p ++ [a] := by
  induction d with
  | nil => left; simp [List.dropWhile_cons, ha]
  | cons x d ih =>
    by_cases hx : p x = true
    · simpa [List.dropWhile_cons, hx] using ih
    · right; simp [List.dropWhile_cons, hx]

theorem trimSpace_snoc (a : Char) (ha : isSpace a = true) (d : Str) :
    trimSpace (d ++ [a]) = trimSpace d := by
  unfold trimSpace
  rcases dropWhile_snoc isSpace a ha d with h | h
  · rw [h.1, h.2]
  · rw [h]
    simp [List.dropWhile_cons, ha]

theorem trimSpace_dropCR (v : Str) : trimSpace (dropCR v) = trimSpace v := by
  unfold dropCR
  by_cases h : v.getLast? = some '\r'
  · rw [if_pos h]
    have e : v = v.dropLast ++ ['\r'] :=
      (List.dropLast_append_getLast? '\r' (by simpa using h)).symm
    conv_rhs => rw [e]
    exact (trimSpace_snoc '\r' (by decide) _).symm
  · rw [if_neg h]

theorem dropCR_kv (k v : Str) : dropCR (k ++ '=' :: v) = k ++ '=' :: dropCR v := by
  cases v with
  | nil =>
    have h : (k ++ ['=']).getLast? ≠ some '\r' := by simp
    simp [dropCR, h]
  | cons x v =>
    have e : k ++ '=' :: x :: v = (k ++ ['=']) ++ (x :: v) := by simp
    have hl : (k ++ '=' :: x :: v).getLast? = (x :: v).getLast? := by
      rw [e, List.getLast?_append]
      cases hg : (x :: v).getLast? with
      | none => simp at hg
      | some y => simp
    unfold dropCR
    rw [hl]
    by_cases h : (x :: v).getLast? = some '\r'
    · rw [if_pos h, if_pos h, e, List.dropLast_append_of_ne_nil _ (by simp)]
      simp
    · rw [if_neg h, if_neg h]

theorem configLine_file_kv (cfg : Config) (k v : Str) (hk : '=' ∉ k) (hv : '=' ∉ v) :
    configLine cfg (dropCR (k ++ '=' :: v)) = cfg.set (trimSpace k) (trimSpace v) := by
  have hv2 : '=' ∉ dropCR v := fun e => hv ((mem_dropCR_iff v).mp e)
  rw [dropCR_kv, configLine_kv cfg k (dropCR v) hk hv2, trimSpace_dropCR]

/-- C9, amended: for every config file content whose lines are each shorter than
the scanner's 65536-byte limit, the last line with or without a newline,
`readConfig` goes through the lines in order; a line with no `=` is skipped and
the result is what it would be without that line, and a line `key=value` with
one `=` sets the trimmed key to the trimmed value, also after a skipped line. -/
theorem readConfig_lines (content : Str)
    (hl : ∀ l ∈ textLines content, byteLen l < maxScanTokenSize) :
    readConfigFile content none
        = .ok (((textLines content).map dropCR).foldl configLine Config.empty)
    ∧ readConfigFile content none
        = readConfigFile
            (joinLines ((textLines content).filter (fun l => decide ('=' ∈ l)))) none
    ∧ readConfig ⟨.ok [], some content, none, none, none⟩ = readConfigFile content none
    ∧ (∀ (cfg : Config) (line : Str), '=' ∉ line → configLine cfg (dropCR line) = cfg)
    ∧ (∀ (cfg : Config) (k v : Str), '=' ∉ k → '=' ∉ v →
        configLine cfg (dropCR (k ++ '=' :: v)) = cfg.set (trimSpace k) (trimSpace v)) := by
  have hf : ∀ l ∈ (textLines content).filter (fun l => decide ('=' ∈ l)),
      '\n' ∉ l ∧ byteLen l < maxScanTokenSize :=
    fun l hm => ⟨textLines_no_newline content l (List.mem_of_mem_filter hm),
      hl l (List.mem_of_mem_filter hm)⟩
  refine ⟨readConfigFile_text content hl, ?_, rfl, ?_, configLine_file_kv⟩
  · rw [readConfigFile_text content hl, readConfigFile_lines _ hf, foldl_configLine_filter]
  · intro cfg line h
    exact configLine_skip cfg _ (fun e => h ((mem_dropCR_iff line).mp e))

/-- Witness for C9: the two lines `foo` and `log_base=/tmp/x`, the second without
a newline, give a map with log_base set to /tmp/x and no entry for foo. -/
theorem readConfig_lines_witness :
    readConfigFile "foo\nlog_base=/tmp/x".toList none
        = .ok (((textLines "foo\nlog_base=/tmp/x".toList).map dropCR).foldl configLine
            Config.empty)
    ∧ textLines "foo\nlog_base=/tmp/x".toList = ["foo".toList, "log_base=/tmp/x".toList]
    ∧ (((textLines "foo\nlog_base=/tmp/x".toList).map dropCR).foldl configLine Config.empty)
        "log_base".toList = some "/tmp/x".toList
    ∧ (((textLines "foo\nlog_base=/tmp/x".toList).map dropCR).foldl configLine Config.empty)
        "foo".toList = none :=
  ⟨(readConfig_lines "foo\nlog_base=/tmp/x".toList (by decide)).1,
    by decide, by decide, by decide⟩

/-- Counterexample to C9 as stated: a first line of 65536 letters has no `=`, yet
it is not skipped: the scanner fails and `readConfig` returns the error, so the
`log_base` line after it is not applied.  And the line `log_base=/tmp/a=b` does
not set log_base to its value /tmp/a=b. -/
theorem readConfig_counterexample :
    readConfigFile (List.replicate 65536 'a' ++ "\nlog_base=/tmp/x\n".toList) none
        = .error errTooLong
    ∧ readConfigFile ("log_base=/tmp/x".toList ++ ['\n']) none
        = .ok (configLine Config.empty (dropCR "log_base=/tmp/x".toList))
    ∧ readConfigFile (List.replicate 65536 'a' ++ "\nlog_base=/tmp/x\n".toList) none
        ≠ readConfigFile ("log_base=/tmp/x".toList ++ ['\n']) none
    ∧ readConfigFile ("log_base=/tmp/a=b".toList ++ ['\n']) none
        = .ok (configLine Config.empty (dropCR "log_base=/tmp/a=b".toList))
    ∧ configLine Config.empty (dropCR "log_base=/tmp/a=b".toList) "log_base".toList
        ≠ some "/tmp/a=b".toList :=
  ⟨readConfigFile_long,
    readConfigFile_one_line "log_base=/tmp/x".toList (by decide),
    fun hc => Except.noConfusion
      (readConfigFile_long.symm.trans
        (hc.trans (readConfigFile_one_line "log_base=/tmp/x".toList (by decide)))),
    readConfigFile_one_line "log_base=/tmp/a=b".toList (by decide),
    by decide⟩

/-! ## The output relay -/

theorem scanLinesFrom_err (ending : Option Str) (data : Str) :
    ∀ cur, (scanLinesFrom ending cur data).err = ending
      ∨ (scanLinesFrom ending cur data).err = some errTooLong := by
  induction data with
  | nil => intro cur; simp [scanLinesFrom]
  | cons c rest ih =>
    intro cur
    unfold scanLinesFrom
    by_cases hc : c = '\n'
    · simp only [hc, if_true]; exact ih []
    · by_cases hb : maxScanTokenSize ≤ byteLen (cur ++ [c])
      · simp [hc, hb]
      · simp only [hc, hb, if_false]; exact ih _

theorem scanLinesFrom_tokens (e1 e2 : Option Str) (data : Str) :
    ∀ cur, (scanLinesFrom e1 cur data).tokens = (scanLinesFrom e2 cur data).tokens := by
  induction data with
  | nil => intro cur; simp [scanLinesFrom]
  | cons c rest ih =>
    intro cur
    unfold scanLinesFrom
    by_cases hc : c = '\n'
    · simp only [hc, if_true]; rw [ih []]
    · by_cases hb : maxScanTokenSize ≤ byteLen (cur ++ [c])
      · simp [hc, hb]
      · simp only [hc, hb, if_false]; exact ih _

theorem scanLinesFrom_err_both (e1 e2 : Option Str) (data : Str) :
    ∀ cur, ((scanLinesFrom e1 cur data).err = e1 ∧ (scanLinesFrom e2 cur data).err = e2)
      ∨ ((scanLinesFrom e1 cur data).err = some errTooLong
          ∧ (scanLinesFrom e2 cur data).err = some errTooLong) := by
  induction data with
  | nil => intro cur; simp [scanLinesFrom]
  | cons c rest ih =>
    intro cur
    unfold scanLinesFrom
    by_cases hc : c = '\n'
    · simp only [hc, if_true]; exact ih []
    · by_cases hb : maxScanTokenSize ≤ byteLen (cur ++ [c])
      · simp [hc, hb]
      · simp only [hc, hb, if_false]; exact ih _

theorem relayFinish_log (err : Option Str) (r : Relay) : (relayFinish err r).log = r.log := by
  unfold relayFinish
  cases err with
  | none => rfl
  | some e => by_cases h : containsStr e ioErrorText = true <;> simp [h]

theorem relayFinish_none (r : Relay) : relayFinish none r = { r with done := r.done + 1 } := rfl

theorem relayFinish_ioError (e : Str) (r : Relay) (h : containsStr e ioErrorText = true) :
    relayFinish (some e) r = r := by
  simp [relayFinish, h]

theorem relayFinish_other (e : Str) (r : Relay) (h : containsStr e ioErrorText = false) :
    relayFinish (some e) r
      = { r with
          console := r.console ++ ("Error reading PTY output: ".toList ++ e ++ ['\n']),
          done := r.done + 1 } := by
  simp [relayFinish, h]

theorem runSteps_append (a b : List (Relay → Relay)) (r : Relay) :
    runSteps (a ++ b) r = runSteps b (runSteps a r) := by
  simp [runSteps, List.foldl_append]

theorem runSteps_done (steps : List (Relay → Relay))
    (h : ∀ f ∈ steps, ∀ r, (f r).done = r.done) :
    ∀ r, (runSteps steps r).done = r.done := by
  induction steps with
  | nil => intro r; rfl
  | cons f fs ih =>
    intro r
    have e : runSteps (f :: fs) r = runSteps fs (f r) := rfl
    rw [e, ih (fun g hg => h g (by simp [hg])), h f (by simp)]

theorem consoleWrite_done (consoleEnv : Nat → WriteOutcome) (k : Nat) (line : Str) (r : Relay) :
    (consoleWrite consoleEnv k line r).done = r.done := by
  unfold consoleWrite
  cases consoleEnv k <;> rfl

theorem logWrite_done (consoleEnv logEnv : Nat → WriteOutcome) (k : Nat) (line : Str)
    (r : Relay) : (logWrite consoleEnv logEnv k line r).done = r.done := by
  unfold logWrite
  cases consoleEnv k <;> cases logEnv k <;> rfl

theorem relayLines_done (consoleEnv logEnv : Nat → WriteOutcome) (tokens : List Str) :
    ∀ k, ∀ f ∈ relayLines consoleEnv logEnv k tokens, ∀ r, (f r).done = r.done := by
  induction tokens with
  | nil => intro k f hf; simp [relayLines] at hf
  | cons t ts ih =>
    intro k f hf r
    simp only [relayLines, fprintlnBoth, List.cons_append, List.nil_append, List.mem_cons] at hf
    rcases hf with hf | hf | hf
    · rw [hf]; exact consoleWrite_done _ _ _ _
    · rw [hf]; exact logWrite_done _ _ _ _ _
    · exact ih (k + 1) f hf r

theorem relayLines_length (consoleEnv logEnv : Nat → WriteOutcome) (tokens : List Str) :
    ∀ k, (relayLines consoleEnv logEnv k tokens).length = 2 * tokens.length := by
  induction tokens with
  | nil => intro k; rfl
  | cons t ts ih =>
    intro k
    simp only [relayLines, fprintlnBoth, List.cons_append, List.nil_append, List.length_cons,
      ih (k + 1)]
    omega

theorem relayLines_ok (tokens : List Str) :
    ∀ k r, runSteps (relayLines writesOk writesOk k tokens) r
      = ⟨r.console ++ joinLines tokens, r.log ++ joinLines tokens, r.done⟩ := by
  induction tokens with
  | nil => intro k r; simp [relayLines, joinLines, runSteps]
  | cons t ts ih =>
    intro k r
    have e : runSteps (relayLines writesOk writesOk k (t :: ts)) r
        = runSteps (relayLines writesOk writesOk (k + 1) ts)
            (logWrite writesOk writesOk k t (consoleWrite writesOk k t r)) := rfl
    rw [e, ih]
    simp [consoleWrite, logWrite, writesOk, joinLines]

theorem dropCR_append_cr (l : Str) : dropCR (l ++ ['\r']) = l := by
  simp [dropCR]

theorem dropCR_of_no_cr (l : Str) (h : l.getLast? ≠ some '\r') : dropCR l = l := by
  simp [dropCR, h]

/-- The relay either is cut off among its writes or runs to its end. -/
theorem streamPTYOutput_cases (banner : Str) (consoleEnv logEnv : Nat → WriteOutcome)
    (data : Str) (ending : Option Str) (life : Nat) :
    (life < 2 * (scanLines data ending).tokens.length + 2
      ∧ streamPTYOutput banner consoleEnv logEnv data ending life
          = runSteps ((printBanner banner ::
              relayLines consoleEnv logEnv 0 (scanLines data ending).tokens).take life)
              ⟨[], [], 0⟩)
    ∨ (2 * (scanLines data ending).tokens.length + 2 ≤ life
      ∧ streamPTYOutput banner consoleEnv logEnv data ending life
          = relayFinish (scanLines data ending).err
              (runSteps (relayLines consoleEnv logEnv 0 (scanLines data ending).tokens)
                (printBanner banner ⟨[], [], 0⟩))) := by
  have hlen : (printBanner banner ::
      relayLines consoleEnv logEnv 0 (scanLines data ending).tokens).length
        = 2 * (scanLines data ending).tokens.length + 1 := by
    simp [relayLines_length]
  have hsteps : relaySteps banner consoleEnv logEnv data ending
      = (printBanner banner :: relayLines consoleEnv logEnv 0 (scanLines data ending).tokens)
          ++ [relayFinish (scanLines data ending).err] := rfl
  unfold streamPTYOutput
  rw [hsteps]
  by_cases h : life < 2 * (scanLines data ending).tokens.length + 2
  · left
    refine ⟨h, ?_⟩
    rw [List.take_append_of_le_length (by rw [hlen]; omega)]
  · right
    refine ⟨by omega, ?_⟩
    rw [List.take_of_length_le (by rw [List.length_append, hlen]; simp; omega),
      runSteps_append]
    rfl

theorem banner_steps_done (banner : Str) (consoleEnv logEnv : Nat → WriteOutcome)
    (tokens : List Str) (life : Nat) :
    (runSteps ((printBanner banner :: relayLines consoleEnv logEnv 0 tokens).take life)
      ⟨[], [], 0⟩).done = 0 := by
  rw [runSteps_done]
  intro f hf r
  have hm := List.mem_of_mem_take hf
  simp only [List.mem_cons] at hm
  rcases hm with hm | hm
  · rw [hm]; rfl
  · exact relayLines_done consoleEnv logEnv tokens 0 f hm r

theorem lines_steps_done (banner : Str) (consoleEnv logEnv : Nat → WriteOutcome)
    (tokens : List Str) :
    (runSteps (relayLines consoleEnv logEnv 0 tokens) (printBanner banner ⟨[], [], 0⟩)).done
      = 0 := by
  rw [runSteps_done _ (relayLines_done consoleEnv logEnv tokens 0)]
  rfl

theorem streamPTYOutput_tokens (banner : Str) (data : Str) (ending : Option Str)
    (toks : List Str) (life : Nat) (h : scanLines data ending = ⟨toks, ending⟩)
    (hlife : 2 * toks.length + 2 ≤ life) :
    streamPTYOutput banner writesOk writesOk data ending life
      = relayFinish ending ⟨banner ++ joinLines toks, joinLines toks, 0⟩ := by
  rcases streamPTYOutput_cases banner writesOk writesOk data ending life with ⟨h1, _⟩ | ⟨_, h2⟩
  · rw [h] at h1
    have h3 : life < 2 * toks.length + 2 := h1
    omega
  · rw [h2, h, relayLines_ok]
    simp [printBanner]

theorem streamPTYOutput_long (banner : Str) (ending : Option Str) (n : Nat)
    (h : maxScanTokenSize ≤ n) (rest : Str) (life : Nat) (hlife : 2 ≤ life) :
    streamPTYOutput banner writesOk writesOk (List.replicate n 'a' ++ rest) ending life
      = ⟨banner ++ ("Error reading PTY output: ".toList ++ errTooLong ++ ['\n']), [], 1⟩ := by
  rcases streamPTYOutput_cases banner writesOk writesOk (List.replicate n 'a' ++ rest)
    ending life with ⟨h1, _⟩ | ⟨_, h2⟩
  · rw [scanLines_long ending n h rest] at h1
    simp at h1; omega
  · rw [h2, scanLines_long ending n h rest, relayFinish_other _ _ (by decide)]
    rfl

theorem map_dropCR_crlf (lines : List Str) :
    (lines.map (fun l => l ++ ['\r'])).map dropCR = lines := by
  induction lines with
  | nil => rfl
  | cons l ls ih => simp only [List.map_cons, dropCR_append_cr, ih]

theorem map_dropCR_plain (lines : List Str) (h : ∀ l ∈ lines, l.getLast? ≠ some '\r') :
    lines.map dropCR = lines := by
  induction lines with
  | nil => rfl
  | cons l ls ih =>
    rw [List.map_cons, dropCR_of_no_cr l (h l (by simp)), ih (fun x hx => h x (by simp [hx]))]

theorem streamPTYOutput_crlf (banner : Str) (lines : List Str) (ending : Option Str)
    (life : Nat) (hlife : 2 * lines.length + 2 ≤ life)
    (hl : ∀ l ∈ lines, '\n' ∉ l ∧ byteLen l + 1 < maxScanTokenSize) :
    streamPTYOutput banner writesOk writesOk (joinLines (lines.map (fun l => l ++ ['\r'])))
        ending life
      = relayFinish ending ⟨banner ++ joinLines lines, joinLines lines, 0⟩ := by
  have hl2 : ∀ x ∈ lines.map (fun l => l ++ ['\r']),
      '\n' ∉ x ∧ byteLen x < maxScanTokenSize := by
    intro x hx
    obtain ⟨l, hm, rfl⟩ := List.mem_map.mp hx
    have := hl l hm
    refine ⟨?_, ?_⟩
    · intro hmem
      simp only [List.mem_append, List.mem_singleton] at hmem
      rcases hmem with hmem | hmem
      · exact this.1 hmem
      · exact absurd hmem (by decide)
    · rw [byteLen_append]
      have : byteLen ['\r'] = 1 := by decide
      omega
  have h := scanLines_lines ending _ [] hl2 (by decide)
  simp only [List.append_nil, if_true, map_dropCR_crlf] at h
  exact streamPTYOutput_tokens banner _ ending lines life h hlife

theorem streamPTYOutput_plain (banner : Str) (lines : List Str) (ending : Option Str)
    (life : Nat) (hlife : 2 * lines.length + 2 ≤ life)
    (hl : ∀ l ∈ lines, '\n' ∉ l ∧ byteLen l < maxScanTokenSize ∧ l.getLast? ≠ some '\r') :
    streamPTYOutput banner writesOk writesOk (joinLines lines) ending life
      = relayFinish ending ⟨banner ++ joinLines lines, joinLines lines, 0⟩ := by
  have h := scanLines_lines ending lines [] (fun l hm => ⟨(hl l hm).1, (hl l hm).2.1⟩) (by decide)
  simp only [List.append_nil, if_true, map_dropCR_plain lines (fun l hm => (hl l hm).2.2)] at h
  exact streamPTYOutput_tokens banner _ ending lines life h hlife

theorem relayFinish_outcome (ending : Option Str) (c l : Str) :
    (relayFinish ending ⟨c, l, 0⟩).log = l
    ∧ (ending = none → (relayFinish ending ⟨c, l, 0⟩).console = c)
    ∧ (∀ e, ending = some e → containsStr e ioErrorText = true →
        (relayFinish ending ⟨c, l, 0⟩).console = c)
    ∧ (∀ e, ending = some e → containsStr e ioErrorText = false →
        (relayFinish ending ⟨c, l, 0⟩).console
          = c ++ ("Error reading PTY output: ".toList ++ e ++ ['\n'])) := by
  refine ⟨relayFinish_log _ _, ?_, ?_, ?_⟩
  · intro h; rw [h]; rfl
  · intro e h hc; rw [h, relayFinish_ioError _ _ hc]
  · intro e h hc; rw [h, relayFinish_other _ _ hc]

/-- C5, amended: when the relay gets to run to the end of the stream before the
process exits, every write succeeds and no line is too long for the scanner's
65536-byte buffer, the relay writes to the log exactly the child's lines,
verbatim and in order, each followed by one newline, and writes to the console
the banner, the same bytes, and then the report of the read error if the stream
ended with one that is not an input/output error.  A terminal that delivers
each line with a carriage return and a newline leaves room for lines of at most
65534 bytes; one that delivers a bare newline leaves room for lines shorter than
65536 bytes, which must not end in a carriage return (the scanner removes one). -/
theorem relay_verbatim (banner : Str) (lines : List Str) (ending : Option Str) (life : Nat)
    (hlife : 2 * lines.length + 2 ≤ life) :
    ((∀ l ∈ lines, '\n' ∉ l ∧ byteLen l + 1 < maxScanTokenSize) →
      (streamPTYOutput banner writesOk writesOk
          (joinLines (lines.map (fun l => l ++ ['\r']))) ending life).log = joinLines lines
      ∧ (ending = none →
          (streamPTYOutput banner writesOk writesOk
            (joinLines (lines.map (fun l => l ++ ['\r']))) ending life).console
              = banner ++ joinLines lines)
      ∧ (∀ e, ending = some e → containsStr e ioErrorText = true →
          (streamPTYOutput banner writesOk writesOk
            (joinLines (lines.map (fun l => l ++ ['\r']))) ending life).console
              = banner ++ joinLines lines)
      ∧ (∀ e, ending = some e → containsStr e ioErrorText = false →
          (streamPTYOutput banner writesOk writesOk
            (joinLines (lines.map (fun l => l ++ ['\r']))) ending life).console
              = banner ++ joinLines lines
                  ++ ("Error reading PTY output: ".toList ++ e ++ ['\n'])))
    ∧ ((∀ l ∈ lines, '\n' ∉ l ∧ byteLen l < maxScanTokenSize ∧ l.getLast? ≠ some '\r') →
      (streamPTYOutput banner writesOk writesOk (joinLines lines) ending life).log
          = joinLines lines
      ∧ (ending = none →
          (streamPTYOutput banner writesOk writesOk (joinLines lines) ending life).console
              = banner ++ joinLines lines)
      ∧ (∀ e, ending = some e → containsStr e ioErrorText = true →
          (streamPTYOutput banner writesOk writesOk (joinLines lines) ending life).console
              = banner ++ joinLines lines)
      ∧ (∀ e, ending = some e → containsStr e ioErrorText = false →
          (streamPTYOutput banner writesOk writesOk (joinLines lines) ending life).console
              = banner ++ joinLines lines
                  ++ ("Error reading PTY output: ".toList ++ e ++ ['\n']))) := by
  refine ⟨fun hl => ?_, fun hl => ?_⟩
  · rw [streamPTYOutput_crlf banner lines ending life hlife hl]
    exact relayFinish_outcome ending _ _
  · rw [streamPTYOutput_plain banner lines ending life hlife hl]
    exact relayFinish_outcome ending _ _

/-- Witness for C5: the lines "hello" and "a=b" are delivered with CR LF, the read
then fails with the input/output error of a child that has exited, and the relay
has run to its end: log and console hold "hello", newline, "a=b", newline, the
console after the banner. -/
theorem relay_verbatim_witness :
    (streamPTYOutput "B".toList writesOk writesOk "hello\r\na=b\r\n".toList
        (some "read /dev/ptmx: input/output error".toList) 6).log = "hello\na=b\n".toList
    ∧ (streamPTYOutput "B".toList writesOk writesOk "hello\r\na=b\r\n".toList
        (some "read /dev/ptmx: input/output error".toList) 6).console
        = "Bhello\na=b\n".toList :=
  ⟨((relay_verbatim "B".toList ["hello".toList, "a=b".toList]
      (some "read /dev/ptmx: input/output error".toList) 6 (by decide)).1 (by decide)).1,
   ((relay_verbatim "B".toList ["hello".toList, "a=b".toList]
      (some "read /dev/ptmx: input/output error".toList) 6 (by decide)).1 (by decide)).2.2.1
      "read /dev/ptmx: input/output error".toList rfl (by decide)⟩

/-- Counterexample to C5 as stated: a line of 65536 letters stops the scanner
with "token too long", and neither that line nor the line after it reaches the
log, with LF and with CR LF line ends; and for the one line "hi" of `echo hi`,
main can receive the waiter's signal and exit when the relay has only printed its
banner, and then the line is in neither the log nor the console. -/
theorem relay_verbatim_counterexample :
    (streamPTYOutput [] writesOk writesOk
        (List.replicate 65536 'a' ++ "\nb\n".toList) none 6).log = []
    ∧ (streamPTYOutput [] writesOk writesOk
        (List.replicate 65536 'a' ++ "\r\nb\r\n".toList) none 6).log = []
    ∧ (streamPTYOutput [] writesOk writesOk
        (List.replicate 65536 'a' ++ "\nb\n".toList) none 6).log
          ≠ List.replicate 65536 'a' ++ "\nb\n".toList
    ∧ (streamPTYOutput [] writesOk writesOk "hi\r\n".toList
        (some "read /dev/ptmx: input/output error".toList) 1).log = []
    ∧ (streamPTYOutput [] writesOk writesOk "hi\r\n".toList
        (some "read /dev/ptmx: input/output error".toList) 1).console = []
    ∧ (streamPTYOutput [] writesOk writesOk "hi\r\n".toList
        (some "read /dev/ptmx: input/output error".toList) 1).log ≠ "hi\n".toList :=
  ⟨congrArg Relay.log
      (streamPTYOutput_long [] none 65536 maxScanTokenSize_le _ 6 (by decide)),
   congrArg Relay.log
      (streamPTYOutput_long [] none 65536 maxScanTokenSize_le _ 6 (by decide)),
   fun h => List.append_ne_nil_of_right_ne_nil _ (List.cons_ne_nil _ _)
     (h.symm.trans (congrArg Relay.log
       (streamPTYOutput_long [] none 65536 maxScanTokenSize_le _ 6 (by decide)))),
   by decide, by decide, by decide⟩

/-- C2, amended: when the relay runs to the end of the stream, it goes to its
send `done <- true` exactly once if the stream ended cleanly or with a read
error whose text does not contain "input/output error"; that error is printed
on the console first.  When the read fails with an "input/output error" the
relay returns without a send and without printing.  A relay that the end of the
process cuts off before its end has not reached its send.  It never reaches the
send more than once, and the bytes it has written to the log are the same
whichever way the stream ends. -/
theorem relay_completion (banner : Str) (consoleEnv logEnv : Nat → WriteOutcome) (data : Str)
    (ending : Option Str) (life : Nat) :
    (2 * (scanLines data ending).tokens.length + 2 ≤ life → ending = none →
        (streamPTYOutput banner consoleEnv logEnv data ending life).done = 1)
    ∧ (2 * (scanLines data ending).tokens.length + 2 ≤ life →
        ∀ e, ending = some e → containsStr e ioErrorText = false →
        (streamPTYOutput banner consoleEnv logEnv data ending life).done = 1
        ∧ ((scanLines data none).err = none →
            (streamPTYOutput banner consoleEnv logEnv data ending life).console
              = (streamPTYOutput banner consoleEnv logEnv data none life).console
                  ++ ("Error reading PTY output: ".toList ++ e ++ ['\n'])))
    ∧ (∀ e, ending = some e → containsStr e ioErrorText = true →
        (scanLines data none).err = none →
        (streamPTYOutput banner consoleEnv logEnv data ending life).done = 0
        ∧ (streamPTYOutput banner consoleEnv logEnv data ending life).console
            = (streamPTYOutput banner consoleEnv logEnv data none life).console)
    ∧ (life < 2 * (scanLines data ending).tokens.length + 2 →
        (streamPTYOutput banner consoleEnv logEnv data ending life).done = 0)
    ∧ (streamPTYOutput banner consoleEnv logEnv data ending life).done ≤ 1
    ∧ (streamPTYOutput banner consoleEnv logEnv data ending life).log
        = (streamPTYOutput banner consoleEnv logEnv data none life).log := by
  have htl : containsStr errTooLong ioErrorText = false := by decide
  have herr : (scanLines data ending).err = ending
      ∨ (scanLines data ending).err = some errTooLong := scanLinesFrom_err ending data []
  have htok : (scanLines data none).tokens = (scanLines data ending).tokens :=
    scanLinesFrom_tokens none ending data []
  have hboth : (scanLines data none).err = none → (scanLines data ending).err = ending := by
    intro hn
    rcases scanLinesFrom_err_both ending none data [] with h | h
    · exact h.1
    · have h2 : (scanLines data none).err = some errTooLong := h.2
      rw [hn] at h2
      cases h2
  have hP := banner_steps_done banner consoleEnv logEnv (scanLines data ending).tokens life
  have hQ := lines_steps_done banner consoleEnv logEnv (scanLines data ending).tokens
  have hce := streamPTYOutput_cases banner consoleEnv logEnv data ending life
  have hcn := streamPTYOutput_cases banner consoleEnv logEnv data none life
  rw [htok] at hcn
  have hfin : ∀ err, (relayFinish err
      (runSteps (relayLines consoleEnv logEnv 0 (scanLines data ending).tokens)
        (printBanner banner ⟨[], [], 0⟩))).done ≤ 1
      ∧ ((err = none ∨ ∃ e, err = some e ∧ containsStr e ioErrorText = false) →
        (relayFinish err
          (runSteps (relayLines consoleEnv logEnv 0 (scanLines data ending).tokens)
            (printBanner banner ⟨[], [], 0⟩))).done = 1) := by
    intro err
    cases err with
    | none => rw [relayFinish_none]; simp [hQ]
    | some e =>
      by_cases hc : containsStr e ioErrorText = true
      · rw [relayFinish_ioError _ _ hc]
        refine ⟨by rw [hQ]; omega, ?_⟩
        rintro (h | ⟨e2, h, h2⟩)
        · cases h
        · cases h; rw [hc] at h2; cases h2
      · rw [relayFinish_other _ _ (by simpa using hc)]; simp [hQ]
  refine ⟨?_, ?_, ?_, ?_, ?_, ?_⟩
  · intro hfull he
    rcases hce with ⟨h1, _⟩ | ⟨_, h2⟩
    · omega
    · rw [h2]
      apply (hfin _).2
      rcases herr with h | h
      · left; rw [h, he]
      · right; exact ⟨_, h, htl⟩
  · intro hfull e he hc
    rcases hce with ⟨h1, _⟩ | ⟨_, h2⟩
    · omega
    · refine ⟨?_, ?_⟩
      · rw [h2]
        apply (hfin _).2
        right
        rcases herr with h | h
        · exact ⟨e, by rw [h, he], hc⟩
        · exact ⟨_, h, htl⟩
      · intro hn
        rcases hcn with ⟨h3, _⟩ | ⟨_, h4⟩
        · omega
        · rw [h2, h4, hboth hn, hn, he, relayFinish_other _ _ hc, relayFinish_none]
  · intro e he hc hn
    subst he
    rcases hce with ⟨h1, h2⟩ | ⟨h1, h2⟩
    · rcases hcn with ⟨_, h4⟩ | ⟨h3, _⟩
      · rw [h2, h4]; exact ⟨hP, rfl⟩
      · omega
    · rcases hcn with ⟨h3, _⟩ | ⟨_, h4⟩
      · omega
      · rw [h2, h4, hboth hn, hn, relayFinish_ioError _ _ hc, relayFinish_none]
        exact ⟨hQ, rfl⟩
  · intro hcut
    rcases hce with ⟨_, h2⟩ | ⟨h1, _⟩
    · rw [h2]; exact hP
    · omega
  · rcases hce with ⟨_, h2⟩ | ⟨_, h2⟩
    · rw [h2, hP]; omega
    · rw [h2]; exact (hfin _).1
  · rcases hce with ⟨h1, h2⟩ | ⟨h1, h2⟩
    · rcases hcn with ⟨_, h4⟩ | ⟨h3, _⟩
      · rw [h2, h4]
      · omega
    · rcases hcn with ⟨h3, _⟩ | ⟨_, h4⟩
      · omega
      · rw [h2, h4, relayFinish_log, relayFinish_log]

/-- Witness for C2: after "hello" the read fails.  With the input/output error
the relay reaches no send and prints nothing more than on a clean end; with
another error it prints the error and reaches its send once. -/
theorem relay_completion_witness :
    ((streamPTYOutput [] writesOk writesOk "hello\r\n".toList
        (some "read /dev/ptmx: input/output error".toList) 4).done = 0
      ∧ (streamPTYOutput [] writesOk writesOk "hello\r\n".toList
        (some "read /dev/ptmx: input/output error".toList) 4).console
        = (streamPTYOutput [] writesOk writesOk "hello\r\n".toList none 4).console)
    ∧ ((streamPTYOutput [] writesOk writesOk "hello\r\n".toList
        (some "read /dev/ptmx: bad file descriptor".toList) 4).done = 1
      ∧ (streamPTYOutput [] writesOk writesOk "hello\r\n".toList
        (some "read /dev/ptmx: bad file descriptor".toList) 4).console
        = (streamPTYOutput [] writesOk writesOk "hello\r\n".toList none 4).console
            ++ ("Error reading PTY output: ".toList
                  ++ "read /dev/ptmx: bad file descriptor".toList ++ ['\n'])) :=
  ⟨(relay_completion [] writesOk writesOk "hello\r\n".toList
      (some "read /dev/ptmx: input/output error".toList) 4).2.2.1
      "read /dev/ptmx: input/output error".toList rfl (by decide) (by decide),
   ⟨((relay_completion [] writesOk writesOk "hello\r\n".toList
      (some "read /dev/ptmx: bad file descriptor".toList) 4).2.1 (by decide)
      "read /dev/ptmx: bad file descriptor".toList rfl (by decide)).1,
    ((relay_completion [] writesOk writesOk "hello\r\n".toList
      (some "read /dev/ptmx: bad file descriptor".toList) 4).2.1 (by decide)
      "read /dev/ptmx: bad file descriptor".toList rfl (by decide)).2 (by decide)⟩⟩

/-- Counterexample to C2 as stated: the relay has read and written "hello" and
runs to its end; when the read fails with the input/output error it reaches no
send on `done`, while on a clean end it reaches one. -/
theorem relay_completion_counterexample :
    (streamPTYOutput [] writesOk writesOk "hello\r\n".toList
        (some "read /dev/ptmx: input/output error".toList) 4).done = 0
    ∧ (streamPTYOutput [] writesOk writesOk "hello\r\n".toList
        (some "read /dev/ptmx: input/output error".toList) 4).log = "hello\n".toList
    ∧ (streamPTYOutput [] writesOk writesOk "hello\r\n".toList none 4).done = 1 := by
  decide

/-! ## Log entries -/

theorem itoaLoop_go (fuel i wid : Nat) (acc : Str) (h : 10 ≤ i ∨ 1 < wid) :
    itoaLoop (fuel + 1) i wid acc
      = itoaLoop fuel (i / 10) (wid - 1) (Nat.digitChar (i % 10) :: acc) := by
  rw [itoaLoop, if_pos h]

theorem itoaLoop_stop (fuel i wid : Nat) (acc : Str) (h : ¬ (10 ≤ i ∨ 1 < wid)) :
    itoaLoop (fuel + 1) i wid acc = Nat.digitChar i :: acc := by
  rw [itoaLoop, if_neg h]

theorem itoa_two (n : Nat) (h : n < 100) :
    itoa n 2 = [Nat.digitChar (n / 10), Nat.digitChar (n % 10)] := by
  show itoaLoop (18 + 1) n 2 [] = _
  rw [itoaLoop_go _ _ _ _ (by omega)]
  show itoaLoop (17 + 1) (n / 10) 1 _ = _
  rw [itoaLoop_stop _ _ _ _ (by omega)]

theorem itoa_four (n : Nat) (h : n < 10000) :
    itoa n 4 = [Nat.digitChar (n / 1000), Nat.digitChar (n / 100 % 10),
      Nat.digitChar (n / 10 % 10), Nat.digitChar (n % 10)] := by
  have e1 : n / 10 / 10 / 10 = n / 1000 := by omega
  have e2 : n / 10 / 10 % 10 = n / 100 % 10 := by omega
  show itoaLoop (18 + 1) n 4 [] = _
  rw [itoaLoop_go _ _ _ _ (by omega)]
  show itoaLoop (17 + 1) (n / 10) 3 _ = _
  rw [itoaLoop_go _ _ _ _ (by omega)]
  show itoaLoop (16 + 1) (n / 10 / 10) 2 _ = _
  rw [itoaLoop_go _ _ _ _ (by omega)]
  show itoaLoop (15 + 1) (n / 10 / 10 / 10) 1 _ = _
  rw [itoaLoop_stop _ _ _ _ (by omega), e1, e2]

theorem logPrintf_newline (t : Time) (s : Str) :
    logPrintf t (s ++ ['\n']) = logHeader t ++ (s ++ ['\n']) := by
  have h : (logHeader t ++ (s ++ ['\n'])).getLast? = some '\n' := by
    rw [← List.append_assoc, List.getLast?_append]
    simp
  rw [logPrintf, if_pos h]

/-- C10, amended: the line `logAction` appends to the log file is the header of
the standard logger, `YYYY/MM/DD HH:MM:SS` and a space, then the bracketed
timestamp `[YYYY-MM-DD HH:MM:SS]`, one space, the message and one newline; the
bracketed timestamp is not the first thing on the line. -/
theorem logAction_line (now logNow : Time) (action : Str) :
    logAction now logNow action
        = logHeader logNow ++ ('[' :: formatTimestamp now ++ ']' :: ' ' :: action ++ ['\n'])
    ∧ ((logNow.year < 10000 ∧ logNow.month < 100 ∧ logNow.day < 100 ∧ logNow.hour < 100
          ∧ logNow.minute < 100 ∧ logNow.second < 100) →
        logHeader logNow
          = [Nat.digitChar (logNow.year / 1000), Nat.digitChar (logNow.year / 100 % 10),
             Nat.digitChar (logNow.year / 10 % 10), Nat.digitChar (logNow.year % 10), '/',
             Nat.digitChar (logNow.month / 10), Nat.digitChar (logNow.month % 10), '/',
             Nat.digitChar (logNow.day / 10), Nat.digitChar (logNow.day % 10), ' ',
             Nat.digitChar (logNow.hour / 10), Nat.digitChar (logNow.hour % 10), ':',
             Nat.digitChar (logNow.minute / 10), Nat.digitChar (logNow.minute % 10), ':',
             Nat.digitChar (logNow.second / 10), Nat.digitChar (logNow.second % 10), ' '])
    ∧ ((now.year < 10000 ∧ now.month < 100 ∧ now.day < 100 ∧ now.hour < 100
          ∧ now.minute < 100 ∧ now.second < 100) →
        formatTimestamp now
          = [Nat.digitChar (now.year / 1000), Nat.digitChar (now.year / 100 % 10),
             Nat.digitChar (now.year / 10 % 10), Nat.digitChar (now.year % 10), '-',
             Nat.digitChar (now.month / 10), Nat.digitChar (now.month % 10), '-',
             Nat.digitChar (now.day / 10), Nat.digitChar (now.day % 10), ' ',
             Nat.digitChar (now.hour / 10), Nat.digitChar (now.hour % 10), ':',
             Nat.digitChar (now.minute / 10), Nat.digitChar (now.minute % 10), ':',
             Nat.digitChar (now.second / 10), Nat.digitChar (now.second % 10)]) := by
  refine ⟨?_, ?_, ?_⟩
  · have e : '[' :: formatTimestamp now ++ ']' :: ' ' :: action ++ ['\n']
        = ('[' :: formatTimestamp now ++ ']' :: ' ' :: action) ++ ['\n'] := by simp
    rw [logAction, e, logPrintf_newline]
  · rintro ⟨hy, hmo, hd, hh, hmi, hs⟩
    simp [logHeader, itoa_two, itoa_four, hy, hmo, hd, hh, hmi, hs]
  · rintro ⟨hy, hmo, hd, hh, hmi, hs⟩
    simp [formatTimestamp, itoa_two, itoa_four, hy, hmo, hd, hh, hmi, hs]

/-- Witness for C10: at 2024-01-02 03:04:05 the entry for "Process paused". -/
theorem logAction_line_witness :
    logHeader ⟨2024, 1, 2, 3, 4, 5⟩ = "2024/01/02 03:04:05 ".toList
    ∧ formatTimestamp ⟨2024, 1, 2, 3, 4, 5⟩ = "2024-01-02 03:04:05".toList :=
  ⟨((logAction_line ⟨2024, 1, 2, 3, 4, 5⟩ ⟨2024, 1, 2, 3, 4, 5⟩ []).2.1 (by decide)).trans
      (by decide),
   ((logAction_line ⟨2024, 1, 2, 3, 4, 5⟩ ⟨2024, 1, 2, 3, 4, 5⟩ []).2.2 (by decide)).trans
      (by decide)⟩

/-- Counterexample to C10 as stated: the entry for "Process paused" written at
2024-01-02 03:04:05 starts with the logger's own date and time, not with the
bracketed timestamp. -/
theorem logAction_counterexample :
    logAction ⟨2024, 1, 2, 3, 4, 5⟩ ⟨2024, 1, 2, 3, 4, 5⟩ "Process paused".toList
        = "2024/01/02 03:04:05 [2024-01-02 03:04:05] Process paused\n".toList
    ∧ logAction ⟨2024, 1, 2, 3, 4, 5⟩ ⟨2024, 1, 2, 3, 4, 5⟩ "Process paused".toList
        ≠ "[2024-01-02 03:04:05] Process paused\n".toList := by
  decide

/-! ## The session -/

theorem startsWith_append (p s : Str) : startsWith (p ++ s) p = true := by
  induction p with
  | nil => cases s <;> rfl
  | cons c p ih => simp [startsWith, ih]

theorem isFinal_finalMessage (err : Option Str) : isFinal (finalMessage err) = true := by
  cases err with
  | none => decide
  | some e =>
    unfold isFinal finalMessage
    rw [startsWith_append]
    simp

theorem isFinal_started (command : Str) :
    isFinal ("Started command: ".toList ++ command) = false := by
  simp [isFinal, startsWith]

theorem countP_isFinal_controlSwitch (tbl : Char → Char) (line : Str) :
    (loggedMessages (controlSwitch tbl line).1).countP isFinal = 0 := by
  unfold controlSwitch
  cases operatorCommand tbl line with
  | none => rfl
  | some c => cases c <;> decide

theorem step_finalEntries (tbl : Char → Char) (s t : Session) (ev : SessionEvent)
    (h : step tbl s ev = some t) (hi : finalEntries s = s.main.finals) :
    finalEntries t = t.main.finals := by
  unfold step at h
  split at h
  · exact absurd h (by simp)
  · cases ev with
    | relayEnd err =>
      simp only at h
      split at h
      · cases h; exact hi
      · exact absurd h (by simp)
    | controlRead =>
      simp only at h
      split at h
      · cases h
        simp only [finalEntries, List.countP_append, countP_isFinal_controlSwitch]
        exact hi
      · exact absurd h (by simp)
    | childExit e =>
      simp only at h
      split at h
      · cases h; exact hi
      · exact absurd h (by simp)
    | send who =>
      simp only at h
      split at h
      · rename_i hc
        cases h
        have hm : s.main.finals = 0 := by rw [hc.2]; rfl
        cases who <;> simp only [Session.setPc, finalEntries, MainPc.finals] <;>
          (rw [← hm, ← hi]; rfl)
      · exact absurd h (by simp)
    | mainLog =>
      simp only at h
      split at h
      · rename_i hc
        cases h
        have hm : s.main.finals = 0 := by rw [hc]; rfl
        have h0 : List.countP isFinal s.actions = 0 := by
          have := hi; rw [hm] at this; exact this
        simp [finalEntries, List.countP_append, h0, isFinal_finalMessage, MainPc.finals]
      · exact absurd h (by simp)
    | mainReturn =>
      simp only at h
      split at h
      · rename_i hc
        cases h
        have hm : s.main.finals = 1 := by rw [hc]; rfl
        simp only [finalEntries, MainPc.finals]
        rw [← hm, ← hi]; rfl
      · exact absurd h (by simp)
    | interrupt =>
      simp only at h
      split at h
      · cases h; exact hi
      · exact absurd h (by simp)
    | listenerLog =>
      simp only at h
      split at h
      · cases h
        have : isFinal "Received interrupt signal, terminating process".toList = false := by
          decide
        simp only [finalEntries, List.countP_append, List.countP_cons, this, List.countP_nil]
        exact hi
      · exact absurd h (by simp)
    | listenerExit =>
      simp only at h
      split at h
      · cases h; exact hi
      · exact absurd h (by simp)

theorem sentCount_relayEnd (c : Prop) [Decidable c] :
    (if c then SenderPc.returned else SenderPc.sending).sentCount = 0 := by
  split <;> rfl

theorem sentCount_controlRead (c : Prop) [Decidable c] :
    (if c then SenderPc.sending else SenderPc.running).sentCount = 0 := by
  split <;> rfl

theorem step_sends (tbl : Char → Char) (s t : Session) (ev : SessionEvent)
    (h : step tbl s ev = some t) :
    (s.main = .waiting → t.main ≠ .waiting → completedSends t = completedSends s + 1)
    ∧ (s.main ≠ .waiting → t.main ≠ .waiting)
    ∧ (t.main = .waiting → completedSends t = completedSends s)
    ∧ (s.main ≠ .waiting →
        completedSends t = completedSends s ∧ ∀ who, s.pc who = .sending → t.pc who = .sending) := by
  unfold step at h
  split at h
  · exact absurd h (by simp)
  · cases ev with
    | relayEnd err =>
      simp only at h
      split at h
      · rename_i hc
        cases h
        have e : ∀ pc, completedSends { s with relay := pc } = pc.sentCount + s.control.sentCount
            + s.waiter.sentCount := fun _ => rfl
        have e0 : completedSends s = 0 + s.control.sentCount + s.waiter.sentCount := by
          simp [completedSends, hc, SenderPc.sentCount]
        refine ⟨fun h1 h2 => absurd h1 h2, fun h1 => h1, fun _ => ?_, fun _ => ⟨?_, ?_⟩⟩
        · rw [e, e0, sentCount_relayEnd]
        · rw [e, e0, sentCount_relayEnd]
        · intro who hw
          cases who
          · simp [Session.pc, hc] at hw
          · exact hw
          · exact hw
      · exact absurd h (by simp)
    | controlRead =>
      simp only at h
      split at h
      · rename_i hc
        cases h
        have e0 : completedSends s = s.relay.sentCount + 0 + s.waiter.sentCount := by
          simp [completedSends, hc, SenderPc.sentCount]
        refine ⟨fun h1 h2 => absurd h1 h2, fun h1 => h1, fun _ => ?_, fun _ => ⟨?_, ?_⟩⟩
        · rw [e0]; simp only [completedSends, sentCount_controlRead]
        · rw [e0]; simp only [completedSends, sentCount_controlRead]
        · intro who hw
          cases who
          · exact hw
          · simp [Session.pc, hc] at hw
          · exact hw
      · exact absurd h (by simp)
    | childExit e =>
      simp only at h
      split at h
      · rename_i hc
        cases h
        have e0 : completedSends s = s.relay.sentCount + s.control.sentCount + 0 := by
          simp [completedSends, hc, SenderPc.sentCount]
        refine ⟨fun h1 h2 => absurd h1 h2, fun h1 => h1, fun _ => ?_, fun _ => ⟨?_, ?_⟩⟩
        · rw [e0]; rfl
        · rw [e0]; rfl
        · intro who hw
          cases who
          · exact hw
          · exact hw
          · simp [Session.pc, hc] at hw
      · exact absurd h (by simp)
    | send who =>
      simp only at h
      split at h
      · rename_i hc
        cases h
        obtain ⟨h1, h2⟩ := hc
        refine ⟨fun _ _ => ?_, fun h3 => absurd h2 h3, fun h3 => ?_, fun h3 => absurd h2 h3⟩
        · cases who <;> simp only [Session.pc] at h1 <;>
            simp only [completedSends, Session.setPc, h1, SenderPc.sentCount] <;> omega
        · cases who <;> simp [Session.setPc] at h3
      · exact absurd h (by simp)
    | mainLog =>
      simp only at h
      split at h
      · rename_i hpc
        cases h
        exact ⟨fun h1 _ => (by rw [hpc] at h1; cases h1), fun _ => (by simp),
          fun h3 => by simp at h3, fun _ => ⟨rfl, fun who hw => by cases who <;> exact hw⟩⟩
      · exact absurd h (by simp)
    | mainReturn =>
      simp only at h
      split at h
      · rename_i hpc
        cases h
        exact ⟨fun h1 _ => (by rw [hpc] at h1; cases h1), fun _ => (by simp),
          fun h3 => by simp at h3, fun _ => ⟨rfl, fun who hw => by cases who <;> exact hw⟩⟩
      · exact absurd h (by simp)
    | interrupt =>
      simp only at h
      split at h
      · cases h
        exact ⟨fun h1 h2 => absurd h1 h2, fun h1 => h1, fun _ => rfl,
          fun _ => ⟨rfl, fun who hw => by cases who <;> exact hw⟩⟩
      · exact absurd h (by simp)
    | listenerLog =>
      simp only at h
      split at h
      · cases h
        exact ⟨fun h1 h2 => absurd h1 h2, fun h1 => h1, fun _ => rfl,
          fun _ => ⟨rfl, fun who hw => by cases who <;> exact hw⟩⟩
      · exact absurd h (by simp)
    | listenerExit =>
      simp only at h
      split at h
      · cases h
        exact ⟨fun h1 h2 => absurd h1 h2, fun h1 => h1, fun _ => rfl,
          fun _ => ⟨rfl, fun who hw => by cases who <;> exact hw⟩⟩
      · exact absurd h (by simp)

theorem step_exit (tbl : Char → Char) (s t : Session) (ev : SessionEvent)
    (h : step tbl s ev = some t)
    (hi : (∀ c, s.exited = some c → c = 0) ∧ (s.main = .returned → s.exited = some 0)) :
    (∀ c, t.exited = some c → c = 0) ∧ (t.main = .returned → t.exited = some 0) := by
  unfold step at h
  split at h
  · exact absurd h (by simp)
  · rename_i hex
    have hex2 : s.exited = none := by simpa using hex
    have hnr : s.main ≠ .returned := fun e => by
      have := hi.2 e; rw [hex2] at this; exact absurd this (by simp)
    cases ev with
    | relayEnd err =>
      simp only at h
      split at h
      · cases h; exact hi
      · exact absurd h (by simp)
    | controlRead =>
      simp only at h
      split at h
      · cases h; exact hi
      · exact absurd h (by simp)
    | childExit e =>
      simp only at h
      split at h
      · cases h; exact hi
      · exact absurd h (by simp)
    | send who =>
      simp only at h
      split at h
      · cases h
        cases who <;> simp [Session.setPc, hex2]
      · exact absurd h (by simp)
    | mainLog =>
      simp only at h
      split at h
      · cases h; simp [hex2]
      · exact absurd h (by simp)
    | mainReturn =>
      simp only at h
      split at h
      · cases h; simp
      · exact absurd h (by simp)
    | interrupt =>
      simp only at h
      split at h
      · cases h; exact hi
      · exact absurd h (by simp)
    | listenerLog =>
      simp only at h
      split at h
      · cases h; exact hi
      · exact absurd h (by simp)
    | listenerExit =>
      simp only at h
      split at h
      · cases h
        refine ⟨by simp, fun e => absurd e hnr⟩
      · exact absurd h (by simp)

/-- The invariant of a launched session. -/
theorem step_invariant (tbl : Char → Char) (s t : Session) (ev : SessionEvent)
    (h : step tbl s ev = some t)
    (hi : finalEntries s = s.main.finals
      ∧ completedSends s = (if s.main = .waiting then 0 else 1)
      ∧ (∀ c, s.exited = some c → c = 0) ∧ (s.main = .returned → s.exited = some 0)) :
    finalEntries t = t.main.finals
      ∧ completedSends t = (if t.main = .waiting then 0 else 1)
      ∧ (∀ c, t.exited = some c → c = 0) ∧ (t.main = .returned → t.exited = some 0) := by
  obtain ⟨h1, h2, h3⟩ := hi
  obtain ⟨s1, s2, s3, s4⟩ := step_sends tbl s t ev h
  refine ⟨step_finalEntries tbl s t ev h h1, ?_, step_exit tbl s t ev h h3⟩
  by_cases hw : s.main = .waiting
  · rw [if_pos hw] at h2
    by_cases ht : t.main = .waiting
    · rw [if_pos ht, s3 ht, h2]
    · rw [if_neg ht, s1 hw ht, h2]
  · rw [if_neg hw] at h2
    rw [if_neg (s2 hw), (s4 hw).1, h2]

theorem launched_invariant (command stdin : Str) :
    finalEntries (launched command stdin) = (launched command stdin).main.finals
      ∧ completedSends (launched command stdin)
          = (if (launched command stdin).main = .waiting then 0 else 1)
      ∧ (∀ c, (launched command stdin).exited = some c → c = 0)
      ∧ ((launched command stdin).main = .returned
          → (launched command stdin).exited = some 0) := by
  refine ⟨?_, rfl, ?_, ?_⟩
  · show List.countP isFinal ["Started command: ".toList ++ command] = 0
    rw [List.countP_cons, isFinal_started]
    rfl
  · intro c hc; simp [launched] at hc
  · intro hc; simp [launched] at hc

theorem run_invariant (tbl : Char → Char) (sched : List SessionEvent) :
    ∀ s : Session,
      (finalEntries s = s.main.finals
        ∧ completedSends s = (if s.main = .waiting then 0 else 1)
        ∧ (∀ c, s.exited = some c → c = 0) ∧ (s.main = .returned → s.exited = some 0)) →
      (finalEntries (run tbl s sched) = (run tbl s sched).main.finals
        ∧ completedSends (run tbl s sched) = (if (run tbl s sched).main = .waiting then 0 else 1)
        ∧ (∀ c, (run tbl s sched).exited = some c → c = 0)
        ∧ ((run tbl s sched).main = .returned → (run tbl s sched).exited = some 0)) := by
  induction sched with
  | nil => intro s hi; exact hi
  | cons ev rest ih =>
    intro s hi
    rw [run]
    cases h : step tbl s ev with
    | none => exact ih s hi
    | some t => exact ih t (step_invariant tbl s t ev h hi)

theorem run_blocked (tbl : Char → Char) (sched : List SessionEvent) :
    ∀ s : Session, s.main ≠ .waiting →
      (run tbl s sched).main ≠ .waiting
      ∧ (∀ who, s.pc who = .sending → (run tbl s sched).pc who = .sending)
      ∧ completedSends (run tbl s sched) = completedSends s := by
  induction sched with
  | nil => intro s hm; exact ⟨hm, fun _ h => h, rfl⟩
  | cons ev rest ih =>
    intro s hm
    rw [run]
    cases h : step tbl s ev with
    | none => exact ih s hm
    | some t =>
      obtain ⟨_, s2, _, s4⟩ := step_sends tbl s t ev h
      obtain ⟨r1, r2, r3⟩ := ih t (s2 hm)
      exact ⟨r1, fun who hw => r2 who ((s4 hm).2 who hw), r3.trans (s4 hm).1⟩

theorem step_send_none (tbl : Char → Char) (s : Session) (who : Sender)
    (hm : s.main ≠ .waiting) : step tbl s (.send who) = none := by
  unfold step
  split
  · rfl
  · simp [hm]

theorem startsWith_elim (p : Str) : ∀ m : Str, startsWith m p = true → ∃ e, m = p ++ e := by
  induction p with
  | nil => intro m _; exact ⟨m, rfl⟩
  | cons c p ih =>
    intro m h
    cases m with
    | nil => simp [startsWith] at h
    | cons a m =>
      simp only [startsWith, Bool.and_eq_true, beq_iff_eq] at h
      obtain ⟨e, he⟩ := ih m h.2
      exact ⟨e, by rw [h.1, he]; rfl⟩

theorem isFinal_elim (m : Str) (h : isFinal m = true) :
    m = "Command finished successfully".toList
      ∨ ∃ e, m = "Command finished with error: ".toList ++ e := by
  unfold isFinal at h
  rw [Bool.or_eq_true] at h
  rcases h with h | h
  · left; simpa using h
  · right; exact startsWith_elim _ m h

theorem mainPc_finals_le (pc : MainPc) : pc.finals ≤ 1 := by
  cases pc <;> decide

/-- C1, amended: in every run of a launched session, whatever the order in which
the relay, the operator, the child-exit waiter and the interrupt act, at most
one final entry is written, and it reads "Command finished successfully" or
"Command finished with error: " followed by the error.  It is written exactly
once in every run in which main gets past its receive and logs, in particular in
every run that ends by main returning; as long as main has not logged, also when
the interrupt listener has ended the process, there is none. -/
theorem final_entry_once (tbl : Char → Char) (command stdin : Str)
    (sched : List SessionEvent) :
    finalEntries (run tbl (launched command stdin) sched) ≤ 1
    ∧ ((run tbl (launched command stdin) sched).main = .returned →
        finalEntries (run tbl (launched command stdin) sched) = 1
        ∧ (run tbl (launched command stdin) sched).exited = some 0)
    ∧ ((run tbl (launched command stdin) sched).main = .logged →
        finalEntries (run tbl (launched command stdin) sched) = 1)
    ∧ (((run tbl (launched command stdin) sched).main = .waiting
          ∨ (run tbl (launched command stdin) sched).main = .received) →
        finalEntries (run tbl (launched command stdin) sched) = 0)
    ∧ (∀ m ∈ (run tbl (launched command stdin) sched).actions, isFinal m = true →
        m = "Command finished successfully".toList
          ∨ ∃ e, m = "Command finished with error: ".toList ++ e) := by
  obtain ⟨h1, _, _, h4⟩ :=
    run_invariant tbl sched (launched command stdin) (launched_invariant command stdin)
  refine ⟨?_, ?_, ?_, ?_, ?_⟩
  · rw [h1]; exact mainPc_finals_le _
  · intro hm; exact ⟨by rw [h1, hm]; rfl, h4 hm⟩
  · intro hm; rw [h1, hm]; rfl
  · intro hm
    rcases hm with hm | hm <;> (rw [h1, hm]; rfl)
  · intro m _ hf; exact isFinal_elim m hf

/-- Witness for C1: the child exits with status 1, the waiter's signal is
received, main logs and returns: one final entry, with the error. -/
theorem final_entry_once_witness :
    (run noCase (launched "false".toList [])
        [.childExit (some "exit status 1".toList), .send .waiter, .mainLog, .mainReturn]).main
        = .returned
    ∧ finalEntries (run noCase (launched "false".toList [])
        [.childExit (some "exit status 1".toList), .send .waiter, .mainLog, .mainReturn]) = 1
    ∧ (run noCase (launched "false".toList [])
        [.childExit (some "exit status 1".toList), .send .waiter, .mainLog, .mainReturn]).actions
        = ["Started command: false".toList,
            "Command finished with error: exit status 1".toList] :=
  ⟨by decide,
   ((final_entry_once noCase "false".toList []
      [.childExit (some "exit status 1".toList), .send .waiter, .mainLog, .mainReturn]).2.1
      (by decide)).1,
   by decide⟩

/-- Counterexample to C1 as stated: the command is launched, an interrupt
arrives, the listener logs, kills the child and exits the process with code 0:
the run is over and no final entry was written. -/
theorem final_entry_counterexample :
    (run noCase (launched "sleep 5".toList [])
        [.interrupt, .listenerLog, .listenerExit]).exited = some 0
    ∧ finalEntries (run noCase (launched "sleep 5".toList [])
        [.interrupt, .listenerLog, .listenerExit]) = 0
    ∧ (run noCase (launched "sleep 5".toList [])
        [.interrupt, .listenerLog, .listenerExit]).actions
        = ["Started command: sleep 5".toList,
            "Received interrupt signal, terminating process".toList] := by
  decide

/-- C6, amended: the `done` channel has no buffer, so a send completes only
together with main's single receive.  Once main has consumed the first
completion signal, no other send can complete: every source that is at its send
stays blocked there in every continuation of the run (it ends only with the
process), and exactly one send has completed in all. -/
theorem done_send_blocks (tbl : Char → Char) (command stdin : Str)
    (sched later : List SessionEvent)
    (hm : (run tbl (launched command stdin) sched).main ≠ .waiting) :
    (∀ who, step tbl (run tbl (launched command stdin) sched) (.send who) = none)
    ∧ (∀ who, (run tbl (launched command stdin) sched).pc who = .sending →
        (run tbl (run tbl (launched command stdin) sched) later).pc who = .sending)
    ∧ completedSends (run tbl (launched command stdin) sched) = 1
    ∧ completedSends (run tbl (run tbl (launched command stdin) sched) later) = 1 := by
  obtain ⟨_, h2, _⟩ :=
    run_invariant tbl sched (launched command stdin) (launched_invariant command stdin)
  rw [if_neg hm] at h2
  obtain ⟨_, r2, r3⟩ := run_blocked tbl later _ hm
  exact ⟨fun who => step_send_none tbl _ who hm, r2, h2, r3.trans h2⟩

/-- Witness for C6: the child exits and main receives the waiter's signal; the
operator then quits; the control goroutine stays at its send however the run
goes on, here through main's log and return. -/
theorem done_send_blocks_witness :
    (run noCase (run noCase (launched "ls".toList "q\n".toList)
        [.childExit none, .send .waiter, .controlRead])
        [.send .control, .mainLog, .send .control, .mainReturn]).pc .control = .sending :=
  (done_send_blocks noCase "ls".toList "q\n".toList
      [.childExit none, .send .waiter, .controlRead]
      [.send .control, .mainLog, .send .control, .mainReturn] (by decide)).2.1
    .control (by decide)

/-- Counterexample to C6 as stated: after main has consumed the waiter's signal,
the operator's quit brings the control goroutine to its send on `done`; the send
cannot complete, and when main has logged and returned and the process has
exited the control goroutine is still at its send: it was left blocked. -/
theorem done_send_counterexample :
    (run noCase (launched "ls".toList "q\n".toList)
        [.childExit none, .send .waiter, .controlRead]).main = .received
    ∧ (run noCase (launched "ls".toList "q\n".toList)
        [.childExit none, .send .waiter, .controlRead]).control = .sending
    ∧ step noCase (run noCase (launched "ls".toList "q\n".toList)
        [.childExit none, .send .waiter, .controlRead]) (.send .control) = none
    ∧ (run noCase (launched "ls".toList "q\n".toList)
        [.childExit none, .send .waiter, .controlRead, .send .control, .mainLog,
          .send .control, .mainReturn]).control = .sending
    ∧ (run noCase (launched "ls".toList "q\n".toList)
        [.childExit none, .send .waiter, .controlRead, .send .control, .mainLog,
          .send .control, .mainReturn]).exited = some 0 := by
  decide

/-! ## The command line and the exit code -/

theorem main_parsed (tbl : Char → Char) (args : List Str) (env : MainEnv)
    (arg0 : Str) (more : List Str)
    (hp : flagParse args false = .ok false (arg0 :: more)) :
    main tbl args env
      = match readConfig env.files with
        | .error e =>
          ⟨[.readConfig, .printf ("Error reading config: ".toList ++ e ++ ['\n'])], some 0⟩
        | .ok config =>
          match env.createLogFile (config.get "log_base".toList)
              ((splitOn ' ' (filepathBase arg0)).getD 0 []) with
          | some e =>
            ⟨[.readConfig,
              .createLogFile (config.get "log_base".toList)
                ((splitOn ' ' (filepathBase arg0)).getD 0 []),
              .printf ("Error creating log file: ".toList ++ e ++ ['\n'])], some 0⟩
          | none =>
            match env.startCommandInPTY (joinWith [' '] (arg0 :: more)) with
            | some e =>
              ⟨[.readConfig,
                .createLogFile (config.get "log_base".toList)
                  ((splitOn ' ' (filepathBase arg0)).getD 0 []),
                .startCommandInPTY (joinWith [' '] (arg0 :: more)),
                .printf ("Error starting command: ".toList ++ e ++ ['\n'])], some 0⟩
            | none =>
              ⟨[.readConfig,
                .createLogFile (config.get "log_base".toList)
                  ((splitOn ' ' (filepathBase arg0)).getD 0 []),
                .startCommandInPTY (joinWith [' '] (arg0 :: more)),
                .session (run tbl (launched (joinWith [' '] (arg0 :: more)) env.stdin)
                  env.schedule)],
               (run tbl (launched (joinWith [' '] (arg0 :: more)) env.stdin)
                  env.schedule).exited⟩ := by
  have hargs : ¬ (false = true ∨ args.length + 1 < 2) := by
    intro h
    rcases h with h | h
    · cases h
    · have : args = [] := by
        cases args with
        | nil => rfl
        | cons a as => simp only [List.length_cons] at h; omega
      rw [this] at hp
      simp [flagParse] at hp
  unfold main
  rw [hp]
  simp only [if_neg hargs]

/-- C7, amended: whenever the arguments parse and name a command, the exit code
of the supervisor is 0 if the process exits at all: on a graceful shutdown,
whatever the error the child finished with, and also when the config cannot be
read, the log file cannot be created or the command cannot be launched; in
these three cases main prints the error and returns. -/
theorem exit_code_zero (tbl : Char → Char) (args : List Str) (env : MainEnv)
    (arg0 : Str) (more : List Str)
    (hp : flagParse args false = .ok false (arg0 :: more)) :
    (∀ c, (main tbl args env).exitCode = some c → c = 0)
    ∧ (∀ e, readConfig env.files = .error e →
        main tbl args env
          = ⟨[.readConfig, .printf ("Error reading config: ".toList ++ e ++ ['\n'])], some 0⟩)
    ∧ (∀ config e, readConfig env.files = .ok config →
        env.createLogFile (config.get "log_base".toList)
          ((splitOn ' ' (filepathBase arg0)).getD 0 []) = some e →
        main tbl args env
          = ⟨[.readConfig,
              .createLogFile (config.get "log_base".toList)
                ((splitOn ' ' (filepathBase arg0)).getD 0 []),
              .printf ("Error creating log file: ".toList ++ e ++ ['\n'])], some 0⟩)
    ∧ (∀ config e, readConfig env.files = .ok config →
        env.createLogFile (config.get "log_base".toList)
          ((splitOn ' ' (filepathBase arg0)).getD 0 []) = none →
        env.startCommandInPTY (joinWith [' '] (arg0 :: more)) = some e →
        main tbl args env
          = ⟨[.readConfig,
              .createLogFile (config.get "log_base".toList)
                ((splitOn ' ' (filepathBase arg0)).getD 0 []),
              .startCommandInPTY (joinWith [' '] (arg0 :: more)),
              .printf ("Error starting command: ".toList ++ e ++ ['\n'])], some 0⟩)
    ∧ (∀ config, readConfig env.files = .ok config →
        env.createLogFile (config.get "log_base".toList)
          ((splitOn ' ' (filepathBase arg0)).getD 0 []) = none →
        env.startCommandInPTY (joinWith [' '] (arg0 :: more)) = none →
        (main tbl args env).exitCode
            = (run tbl (launched (joinWith [' '] (arg0 :: more)) env.stdin) env.schedule).exited
        ∧ ((run tbl (launched (joinWith [' '] (arg0 :: more)) env.stdin) env.schedule).main
            = .returned → (main tbl args env).exitCode = some 0)) := by
  have hm := main_parsed tbl args env arg0 more hp
  have hinv := run_invariant tbl env.schedule (launched (joinWith [' '] (arg0 :: more)) env.stdin)
    (launched_invariant _ _)
  refine ⟨?_, ?_, ?_, ?_, ?_⟩
  · intro c hc
    rw [hm] at hc
    cases h1 : readConfig env.files with
    | error e => rw [h1] at hc; simp at hc; exact hc.symm
    | ok config =>
      rw [h1] at hc
      simp only at hc
      cases h2 : env.createLogFile (config.get "log_base".toList)
          ((splitOn ' ' (filepathBase arg0)).getD 0 []) with
      | some e => rw [h2] at hc; simp at hc; exact hc.symm
      | none =>
        rw [h2] at hc
        simp only at hc
        cases h3 : env.startCommandInPTY (joinWith [' '] (arg0 :: more)) with
        | some e => rw [h3] at hc; simp at hc; exact hc.symm
        | none =>
          rw [h3] at hc
          exact hinv.2.2.1 c hc
  · intro e h1
    rw [hm, h1]
  · intro config e h1 h2
    rw [hm, h1]
    simp only
    rw [h2]
  · intro config e h1 h2 h3
    rw [hm, h1]
    simp only
    rw [h2]
    simp only
    rw [h3]
  · intro config h1 h2 h3
    have e : (main tbl args env).exitCode
        = (run tbl (launched (joinWith [' '] (arg0 :: more)) env.stdin) env.schedule).exited := by
      rw [hm, h1]
      simp only
      rw [h2]
      simp only
      rw [h3]
    exact ⟨e, fun hr => e.trans (hinv.2.2.2 hr)⟩

/-- Witness for C7: `watcher false` with a child that exits with status 1: the
shutdown is graceful and the exit code is 0. -/
theorem exit_code_zero_witness :
    (main noCase ["false".toList]
      ⟨filesOk, fun _ _ => none, fun _ => none, [],
        [.childExit (some "exit status 1".toList), .send .waiter, .mainLog, .mainReturn]⟩).exitCode
      = some 0 :=
  ((exit_code_zero noCase ["false".toList]
      ⟨filesOk, fun _ _ => none, fun _ => none, [],
        [.childExit (some "exit status 1".toList), .send .waiter, .mainLog, .mainReturn]⟩
      "false".toList [] (by decide)).2.2.2.2
    (Config.empty.set "log_base".toList "/tmp/x".toList)
    ((readConfig_of_one_line "log_base=/tmp/x".toList (by decide)).trans (by rfl))
    rfl rfl).2 (by decide)

/-- Counterexample to C7 as stated: each of the three setup steps fails in turn
(no home directory for the config, no log file, no launch) and the exit code of
the supervisor is 0 each time. -/
theorem exit_code_counterexample :
    main noCase ["ls".toList]
        ⟨⟨.error "$HOME is not defined".toList, none, none, none, none⟩,
          fun _ _ => none, fun _ => none, [], []⟩
      = ⟨[.readConfig, .printf "Error reading config: $HOME is not defined\n".toList], some 0⟩
    ∧ (main noCase ["ls".toList]
        ⟨filesOk, fun _ _ => some "permission denied".toList, fun _ => none, [], []⟩).exitCode
      = some 0
    ∧ (main noCase ["ls".toList]
        ⟨filesOk, fun _ _ => none, fun _ => some "no pty".toList, [], []⟩).exitCode
      = some 0 := by
  decide

/-- C8, at the failing inputs: with the argument lists `--` and `-h=false` the
help flag is not set and there is no non-flag argument, yet main shows no usage:
it reads the config and then fails at `flag.Args()[0]` with an index out of
range, which ends the process with code 2. -/
theorem main_flags_only_panics :
    flagParse ["--".toList] false = .ok false []
    ∧ main noCase ["--".toList] envOk = ⟨[.readConfig, .indexOutOfRange], some 2⟩
    ∧ flagParse ["-h=false".toList] false = .ok false []
    ∧ main noCase ["-h=false".toList] envOk = ⟨[.readConfig, .indexOutOfRange], some 2⟩ := by
  decide

end Watcher
